import Mathlib

set_option maxRecDepth 20000

/-! Verification of the EHR extraction pipeline (data_extractor.py and
llm_extractor.py of the ehr-data-pipeline backend).

Texts are modeled as lists of characters.  The Python regular expressions
of the source are transcribed into a small regex AST evaluated by a
backtracking matcher implementing Python's `re` semantics: leftmost match,
ordered alternation, greedy / lazy repetition with backtracking, groups,
lookahead, and the end anchor that also matches just before one trailing
newline.  Case-insensitive matching lowers both sides (ASCII, as in the
source's data).  A handful of anchored, backtracking-free patterns
(`no\s+known\s+allergies`, `^\d+\.\s*', the two all-caps header patterns
and the slug substitution) are compiled by hand into deterministic
scanners, which is exact because in each of them every repetition class is
disjoint from the character that follows it. -/

abbrev Text := List Char

def pyText (s : String) : Text := s.data

/-- ASCII whitespace as matched by the regex class \s and stripped by
Python's str.strip(). -/
def isSpaceChar (c : Char) : Bool :=
  c = ' ' || c = '\t' || c = '\n' || c = '\r' || c = '\x0b' || c = '\x0c'

def isUpperAZ (c : Char) : Bool := 'A' ≤ c && c ≤ 'Z'

def isLowerAZ (c : Char) : Bool := 'a' ≤ c && c ≤ 'z'

def isDigitChar (c : Char) : Bool := '0' ≤ c && c ≤ '9'

/-- The regex class \w (ASCII). -/
def isWordChar (c : Char) : Bool :=
  isUpperAZ c || isLowerAZ c || isDigitChar c || c = '_'

def pyLower (t : Text) : Text := t.map Char.toLower

def pyUpper (t : Text) : Text := t.map Char.toUpper

def pyStrip (t : Text) : Text :=
  ((t.dropWhile isSpaceChar).reverse.dropWhile isSpaceChar).reverse

/-- Python str.rstrip(c): remove every trailing occurrence of c. -/
def rstripChar (c : Char) (t : Text) : Text :=
  (t.reverse.dropWhile (· = c)).reverse

def segStartsWith [DecidableEq α] : List α → List α → Bool
  | [], _ => true
  | _ :: _, [] => false
  | a :: as, b :: bs => if a = b then segStartsWith as bs else false

/-- Python substring containment (the `in` operator on str). -/
def containsSub [DecidableEq α] (needle hay : List α) : Bool :=
  (List.range (hay.length + 1)).any fun i => segStartsWith needle (hay.drop i)

def endsWithSeg [DecidableEq α] (needle hay : List α) : Bool :=
  segStartsWith needle.reverse hay.reverse

def joinSep (sep : Text) : List Text → Text
  | [] => []
  | [t] => t
  | t :: rest => t ++ sep ++ joinSep sep rest

/-- Python str.split() with no argument: split on whitespace runs,
discarding empty pieces. -/
def pySplitWsAux : Text → Text → List Text
  | [], acc => if acc = [] then [] else [acc.reverse]
  | c :: rest, acc =>
      if isSpaceChar c then
        if acc = [] then pySplitWsAux rest []
        else acc.reverse :: pySplitWsAux rest []
      else pySplitWsAux rest (c :: acc)

def pySplitWs (t : Text) : List Text := pySplitWsAux t []

/-! The regex AST and the backtracking matcher. -/

inductive RE where
  | eps
  | lit : Text → RE
  | cls : (Char → Bool) → RE
  | cat : RE → RE → RE
  | alt : RE → RE → RE
  | star : Bool → RE → RE
  | grp : Nat → RE → RE
  | look : RE → RE
  | eos

abbrev Groups := List (Nat × Text)

/-- Under re.IGNORECASE a class matches a character if any case variant of
the character is in the class. -/
def clsMatch (ci : Bool) (p : Char → Bool) (c : Char) : Bool :=
  p c || (ci && (p c.toLower || p c.toUpper))

def eatLit (ci : Bool) : Text → Text → Option Text
  | [], s => some s
  | p :: ps, c :: cs =>
      if (if ci then c.toLower = p.toLower else c = p) then eatLit ci ps cs
      else none
  | _ :: _, [] => none

/-- Backtracking matcher in continuation style.  Fuel only bounds the
recursion depth; every star iteration must consume input, as Python's
engine also forbids repeating an empty match. -/
def reM (ci : Bool) :
    Nat → RE → Text → Groups → (Text → Groups → Option (Text × Groups)) →
    Option (Text × Groups)
  | 0, _, _, _, _ => none
  | _ + 1, .eps, s, gs, k => k s gs
  | _ + 1, .lit p, s, gs, k =>
      match eatLit ci p s with
      | some r => k r gs
      | none => none
  | _ + 1, .cls p, s, gs, k =>
      match s with
      | [] => none
      | c :: r => if clsMatch ci p c then k r gs else none
  | f + 1, .cat a b, s, gs, k => reM ci f a s gs (fun s1 g1 => reM ci f b s1 g1 k)
  | f + 1, .alt a b, s, gs, k =>
      match reM ci f a s gs k with
      | some res => some res
      | none => reM ci f b s gs k
  | f + 1, .star greedy r, s, gs, k =>
      if greedy then
        match reM ci f r s gs
            (fun s1 g1 =>
              if s1.length < s.length then reM ci f (.star true r) s1 g1 k
              else none) with
        | some res => some res
        | none => k s gs
      else
        match k s gs with
        | some res => some res
        | none =>
          reM ci f r s gs
            (fun s1 g1 =>
              if s1.length < s.length then reM ci f (.star false r) s1 g1 k
              else none)
  | f + 1, .grp n r, s, gs, k =>
      reM ci f r s gs (fun s1 g1 => k s1 ((n, s.take (s.length - s1.length)) :: g1))
  | f + 1, .look r, s, gs, k =>
      match reM ci f r s gs (fun s1 g1 => some (s1, g1)) with
      | some _ => k s gs
      | none => none
  | _ + 1, .eos, s, gs, k => if s = [] || s = ['\n'] then k s gs else none

structure RMatch where
  mstart : Nat
  mend : Nat
  groups : Groups
deriving DecidableEq

def fuelFor (s : Text) : Nat := 4 * s.length + 400

def tryAt (ci : Bool) (re : RE) (s : Text) (pos : Nat) : Option RMatch :=
  let suf := s.drop pos
  match reM ci (fuelFor s) re suf [] (fun rest gs => some (rest, gs)) with
  | some (rest, gs) => some ⟨pos, pos + (suf.length - rest.length), gs⟩
  | none => none

def reSearchFrom (ci : Bool) (re : RE) (s : Text) (pos : Nat) : Option RMatch :=
  (List.range' pos (s.length + 1 - pos)).findSome? (tryAt ci re s)

/-- re.search: the leftmost match, if any. -/
def reSearch (ci : Bool) (re : RE) (s : Text) : Option RMatch :=
  reSearchFrom ci re s 0

/-- match.group(n), with a missing group read as the empty string (every
group of the transcribed patterns participates whenever the pattern
matches). -/
def getGroup (m : RMatch) (n : Nat) : Text :=
  ((m.groups.find? (fun p => p.1 == n)).map Prod.snd).getD []

def reFindIterAux (ci : Bool) (re : RE) (s : Text) : Nat → Nat → List RMatch
  | 0, _ => []
  | f + 1, pos =>
      if pos > s.length then []
      else
        match reSearchFrom ci re s pos with
        | none => []
        | some m => m :: reFindIterAux ci re s f (if pos < m.mend then m.mend else pos + 1)

/-- re.finditer: successive non-overlapping matches, advancing past empty
matches. -/
def reFindIter (ci : Bool) (re : RE) (s : Text) : List RMatch :=
  reFindIterAux ci re s (s.length + 1) 0

def reSeq : List RE → RE
  | [] => .eps
  | [r] => r
  | r :: rest => .cat r (reSeq rest)

def reAlts : List RE → RE
  | [] => .eps
  | [r] => r
  | r :: rest => .alt r (reAlts rest)

def reLit (s : String) : RE := .lit s.data

def rePlus (r : RE) : RE := .cat r (.star true r)

def reOpt (r : RE) : RE := .alt r .eps

def clsWS : RE := .cls isSpaceChar

def clsDigit : RE := .cls isDigitChar

/-- The class [:\s]. -/
def clsColonWS : RE := .cls (fun c => c = ':' || isSpaceChar c)

def clsUpper : RE := .cls isUpperAZ

def clsLower : RE := .cls isLowerAZ

/-- The class [^\.\n]. -/
def clsNotDotNL : RE := .cls (fun c => !(c = '.' || c = '\n'))

/-- The class \w. -/
def clsWord : RE := .cls isWordChar


/-! Transcriptions of the regex pattern tables of DataExtractor.__init__
and of the inline patterns of its methods. -/

def wsPlus : RE := rePlus clsWS

def wsStar : RE := .star true clsWS

def colonWsPlus : RE := rePlus clsColonWS

def digitsPlus : RE := rePlus clsDigit

/-- The name core [A-Z][a-z]*(?:\s+[A-Z][a-z]*)? of the loose name
patterns. -/
def nameCoreLoose : RE :=
  reSeq [clsUpper, .star true clsLower,
    reOpt (reSeq [wsPlus, clsUpper, .star true clsLower])]

/-- The name core [A-Z][a-z]+(?:\s+[A-Z][a-z]+)+ of the strict name
patterns. -/
def nameCoreStrict : RE :=
  reSeq [clsUpper, rePlus clsLower, rePlus (reSeq [wsPlus, clsUpper, rePlus clsLower])]

def titlesLong : RE :=
  reAlts [reLit "Ms.", reLit "Mr.", reLit "Mrs.", reLit "Dr.", reLit "Miss.", reLit "Mx."]

def titlesShort : RE :=
  reAlts [reLit "Ms.", reLit "Mr.", reLit "Mrs.", reLit "Dr."]

def titlesMiss : RE :=
  reAlts [reLit "Ms.", reLit "Mr.", reLit "Mrs.", reLit "Dr.", reLit "Miss."]

/-- patient_name_patterns, in table order. -/
def patientNamePat1 : RE :=
  reSeq [reLit "PATIENT", wsPlus, reLit "IDENTIFICATION", colonWsPlus,
    reOpt titlesLong, wsStar, .grp 1 nameCoreLoose]

def patientNamePat2 : RE :=
  reSeq [reLit "patient", wsStar, reLit "name", colonWsPlus, .grp 1 nameCoreStrict]

def patientNamePat3 : RE :=
  reSeq [reLit "name", colonWsPlus, .grp 1 nameCoreStrict]

def patientNamePat4 : RE :=
  reSeq [titlesShort, wsPlus, .grp 1 nameCoreLoose]

def patientNamePats : List RE :=
  [patientNamePat1, patientNamePat2, patientNamePat3, patientNamePat4]

/-- The date core: one or two digits, a slash-or-hyphen separator, one or
two digits, a separator, then two to four digits. -/
def dateCore : RE :=
  reSeq [clsDigit, reOpt clsDigit, .cls (fun c => c = '/' || c = '-'),
    clsDigit, reOpt clsDigit, .cls (fun c => c = '/' || c = '-'),
    clsDigit, clsDigit, reOpt (.cat clsDigit (reOpt clsDigit))]

def dobPats : List RE :=
  [reSeq [reLit "date", wsStar, reLit "of", wsStar, reLit "birth", colonWsPlus, .grp 1 dateCore],
   reSeq [reLit "dob", colonWsPlus, .grp 1 dateCore],
   reSeq [reLit "birth", wsStar, reLit "date", colonWsPlus, .grp 1 dateCore]]

/-- The class [A-Z0-9-]. -/
def clsMrn : RE := .cls (fun c => isUpperAZ c || isDigitChar c || c = '-')

def mrnPats : List RE :=
  [reSeq [reAlts [reLit "MRN",
      reSeq [reLit "medical", wsPlus, reLit "record", wsPlus, reLit "number"],
      reSeq [reLit "patient", wsPlus, reLit "id"]],
    colonWsPlus, .grp 1 (rePlus clsMrn)],
   reSeq [reLit "mrn", colonWsPlus, .grp 1 (rePlus clsMrn)]]

def genderWords : RE :=
  reAlts [reLit "man", reLit "woman", reLit "male", reLit "female"]

def agePats : List RE :=
  [reSeq [.grp 1 digitsPlus, reLit "-year-old"],
   reSeq [.grp 1 digitsPlus, wsStar, reLit "year", reOpt (reLit "s"), wsStar, reLit "old"],
   reSeq [reLit "age", colonWsPlus, .grp 1 digitsPlus],
   reSeq [.grp 1 digitsPlus, reLit "-year-old", wsPlus, genderWords]]

/-- gender_patterns, in table order. -/
def genderPats : List (RE × Nat) :=
  [(reSeq [.grp 1 digitsPlus, reLit "-year-old", wsPlus, .grp 2 genderWords], 2),
   (reSeq [.grp 1 digitsPlus, wsStar, reLit "year", reOpt (reLit "s"), wsStar,
      reLit "old", wsPlus, .grp 2 genderWords], 2),
   (.grp 1 (reAlts [reLit "Ms.", reLit "Mrs.", reLit "Miss."]), 1),
   (.grp 1 (reLit "Mr."), 1),
   (reSeq [reLit "gender", colonWsPlus,
      .grp 1 (reAlts [reLit "male", reLit "female", reLit "m", reLit "f"])], 1),
   (reSeq [reLit "sex", colonWsPlus,
      .grp 1 (reAlts [reLit "male", reLit "female", reLit "m", reLit "f"])], 1)]

/-- vital_signs_patterns, in dictionary (insertion) order. -/
def vitalPats : List (Text × RE) :=
  [(pyText "blood_pressure",
    reSeq [reLit "blood", wsStar, reLit "pressure", colonWsPlus,
      .grp 1 (reSeq [digitsPlus, reLit "/", digitsPlus])]),
   (pyText "heart_rate",
    reSeq [reLit "heart", wsStar, reLit "rate", colonWsPlus, .grp 1 digitsPlus]),
   (pyText "temperature",
    reSeq [reLit "temperature", colonWsPlus,
      .grp 1 (reSeq [digitsPlus, reOpt (reLit "."), .star true clsDigit])]),
   (pyText "respiratory_rate",
    reSeq [reLit "respiratory", wsStar, reLit "rate", colonWsPlus, .grp 1 digitsPlus]),
   (pyText "oxygen_saturation",
    reSeq [reLit "o2", wsStar, reLit "sat", colonWsPlus, .grp 1 digitsPlus])]

/-- The dot of a pattern without re.DOTALL. -/
def clsDot : RE := .cls (fun c => !(c = '\n'))

/-- diagnosis_patterns, in table order. -/
def diagnosisPats : List RE :=
  [reSeq [reLit "diagnosis", colonWsPlus, .grp 1 (rePlus clsNotDotNL)],
   reSeq [reLit "diagnoses", colonWsPlus, .grp 1 (rePlus clsNotDotNL)],
   reSeq [reLit "condition", colonWsPlus, .grp 1 (rePlus clsNotDotNL)],
   reSeq [reLit "icd", colonWsPlus,
     .grp 1 (rePlus (.cls (fun c => isUpperAZ c || isDigitChar c || c = '.')))],
   reSeq [reLit "ACTIVE", wsPlus, reLit "MEDICAL", wsPlus, reLit "ISSUES", colonWsPlus,
     .grp 1 (.star false clsDot),
     .look (reAlts [reSeq [reLit "PAST", wsPlus, reLit "MEDICAL"],
       reLit "RECONCILED", reLit "ALLERGIES", .eos])]]

/-- The numbered-list pattern (\d+)\.\s+([^\.\n]+?)(?=\d+\.|$) used on
narrative text inside the active_medical_issues section. -/
def diagListItemPat : RE :=
  reSeq [.grp 1 digitsPlus, reLit ".", wsPlus,
    .grp 2 (.cat clsNotDotNL (.star false clsNotDotNL)),
    .look (reAlts [.cat digitsPlus (reLit "."), .eos])]

/-- The class [A-Za-z\s-]. -/
def clsMedName : RE := .cls (fun c => isUpperAZ c || isLowerAZ c || isSpaceChar c || c = '-')

/-- The dose core \d+(?:\.\d+)?. -/
def doseCore : RE := .cat digitsPlus (reOpt (.cat (reLit ".") digitsPlus))

def unitsAlt5 : RE :=
  reAlts [reLit "mg", reLit "ml", reLit "g", .cat (reLit "unit") (reOpt (reLit "s")),
    reLit "mcg"]

/-- The unit alternation (mg|ml|g|units?|mcg|mcg) of the section list-item
medication pattern (the doubled mcg is as in the source). -/
def unitsAlt6 : RE :=
  reAlts [reLit "mg", reLit "ml", reLit "g", .cat (reLit "unit") (reOpt (reLit "s")),
    reLit "mcg", reLit "mcg"]

/-- medication_patterns, in table order. -/
def medicationPat1 : RE :=
  reSeq [.grp 1 digitsPlus, reLit ".", wsPlus,
    .grp 2 (.cat clsMedName (.star false clsMedName)), wsPlus,
    .grp 3 doseCore, wsStar, .grp 4 unitsAlt5]

def medicationPat2 : RE :=
  reSeq [reLit "RECONCILED", wsPlus, reLit "ADMISSION", wsPlus, reLit "MEDICATION",
    wsPlus, reLit "LIST", colonWsPlus, .grp 1 (.star false clsDot),
    .look (reAlts [reLit "ALLERGIES", reLit "SOCIAL", reLit "HISTORY", .eos])]

def medicationPat3 : RE := reSeq [reLit "medication", colonWsPlus, .grp 1 (rePlus clsNotDotNL)]

def medicationPat4 : RE := reSeq [reLit "medications", colonWsPlus, .grp 1 (rePlus clsNotDotNL)]

def medicationPat5 : RE := reSeq [reLit "prescribed", colonWsPlus, .grp 1 (rePlus clsNotDotNL)]

def medicationPat6 : RE :=
  reSeq [.grp 1 (rePlus clsWord), wsPlus, .grp 2 digitsPlus, wsStar,
    .grp 3 (reAlts [reLit "mg", reLit "ml", .cat (reLit "unit") (reOpt (reLit "s"))]),
    wsStar, reAlts [reLit "po", reLit "iv", reLit "im", reLit "subq"]]

/-- The body of the section list-item medication pattern after its
optional anchored ordinal: ([A-Za-z\s-]+?)\s+(\d+(?:\.\d+)?)\s*(mg|ml|g|units?|mcg|mcg). -/
def medItemCore : RE :=
  reSeq [.grp 1 (.cat clsMedName (.star false clsMedName)), wsPlus,
    .grp 2 doseCore, wsStar, .grp 3 unitsAlt6]

/-- Same body with the five-way unit alternation, used when scanning
list items of the other sections. -/
def medItemCoreAll : RE :=
  reSeq [.grp 1 (.cat clsMedName (.star false clsMedName)), wsPlus,
    .grp 2 doseCore, wsStar, .grp 3 unitsAlt5]

/-- The anchored optional ordinal (?:^\d+\.\s*)? of the list-item
medication patterns: the ^ can only succeed at position 0 of the searched
string, so re.search of the whole pattern tries the ordinal branch at
position 0 and the bare body from every position. -/
def searchMedListItem (core : RE) (s : Text) : Option RMatch :=
  match tryAt true (.cat (reOpt (reSeq [digitsPlus, reLit ".", wsStar])) core) s 0 with
  | some m => some m
  | none => reSearchFrom true core s 1

/-- The narrative-text medication pattern
(\d+)\.\s+([A-Za-z\s-]+?)\s+(\d+(?:\.\d+)?)\s*(mg|ml|g|units?|mcg), whose
groups 2-4 carry name, dose and unit. -/
def medNarrativePat : RE :=
  reSeq [.grp 1 digitsPlus, reLit ".", wsPlus,
    .grp 2 (.cat clsMedName (.star false clsMedName)), wsPlus,
    .grp 3 doseCore, wsStar, .grp 4 unitsAlt5]

/-- allergy_patterns entries 1 and 3 (entry 2, no\s+known\s+allergies, is
the hand-compiled scanner searchNKA below). -/
def allergyPat1 : RE :=
  reSeq [reLit "allerg", .grp 1 (reAlts [reLit "y", reLit "ies"]), colonWsPlus,
    .grp 2 (rePlus clsNotDotNL)]

def allergyPat3 : RE :=
  reSeq [reLit "nka", colonWsPlus, .grp 1 (rePlus clsNotDotNL)]

def procedurePats : List RE :=
  [reSeq [reLit "procedure", colonWsPlus, .grp 1 (rePlus clsNotDotNL)],
   reSeq [reLit "procedures", colonWsPlus, .grp 1 (rePlus clsNotDotNL)],
   reSeq [reLit "surgery", colonWsPlus, .grp 1 (rePlus clsNotDotNL)],
   reSeq [reLit "intervention", colonWsPlus, .grp 1 (rePlus clsNotDotNL)]]

/-- The patterns of _extract_patient_name_from_identification, in order. -/
def identNamePats : List RE :=
  [reSeq [reLit "PATIENT", wsPlus, reLit "IDENTIFICATION", colonWsPlus, titlesLong,
    wsPlus, .grp 1 nameCoreLoose],
   reSeq [titlesMiss, wsPlus, .grp 1 nameCoreLoose],
   reSeq [reLit "PATIENT", wsPlus, reLit "IDENTIFICATION", colonWsPlus,
    .grp 1 (reSeq [clsUpper, rePlus clsLower, wsPlus, clsUpper, rePlus clsLower])]]

/-- The title recovery pattern (Ms\.|Mr\.|Mrs\.|Dr\.)\s+([A-Z]) of
_extract_patient_name_from_identification. -/
def titleInitialPat : RE :=
  reSeq [.grp 1 titlesShort, wsPlus, .grp 2 clsUpper]

/-- The age-and-gender patterns of _extract_age_and_gender_from_text. -/
def ageGenderPats : List RE :=
  [reSeq [.grp 1 digitsPlus, reLit "-year-old", wsPlus, .grp 2 genderWords],
   reSeq [.grp 1 digitsPlus, wsStar, reLit "year", reOpt (reLit "s"), wsStar,
     reLit "old", wsPlus, .grp 2 genderWords]]

/-! Hand-compiled deterministic scanners. -/

/-- Matcher of no\s+known\s+allergies at the head of a text
(case-insensitively).  Greedy whitespace needs no backtracking here since
\s is disjoint from the letters that follow each run. -/
def matchNKAAt (s : Text) : Bool :=
  match eatLit true (pyText "no") s with
  | none => false
  | some s1 =>
    match s1 with
    | [] => false
    | c :: r1 =>
      if isSpaceChar c then
        match eatLit true (pyText "known") (r1.dropWhile isSpaceChar) with
        | none => false
        | some s2 =>
          match s2 with
          | [] => false
          | c2 :: r2 =>
            if isSpaceChar c2 then
              (eatLit true (pyText "allergies") (r2.dropWhile isSpaceChar)).isSome
            else false
      else false

/-- re.search of no\s+known\s+allergies (re.IGNORECASE): some position
matches. -/
def searchNKA : Text → Bool
  | [] => false
  | s@(_ :: rest) => matchNKAAt s || searchNKA rest

/-- re.sub of ^\d+\.\s* with the empty string (used on list-item
diagnosis texts): the anchored pattern is deterministic. -/
def stripLeadingOrdinal (t : Text) : Text :=
  match t with
  | c :: _ =>
    if isDigitChar c then
      let rest := t.dropWhile isDigitChar
      match rest with
      | '.' :: r => r.dropWhile isSpaceChar
      | _ => t
    else t
  | [] => t

/-! The element model and the section segmenter (_identify_sections). -/

structure Elem where
  type? : Option String := none
  text? : Option String := none
deriving DecidableEq

/-- elem.get('text', ''): a missing text reads as the empty string. -/
def elemText (e : Elem) : Text :=
  match e.text? with
  | some s => s.data
  | none => []

/-- elem.get('type', ''): a missing type reads as the empty string, which
is none of the recognized tags. -/
def elemType (e : Elem) : Text :=
  match e.type? with
  | some s => s.data
  | none => []

def combineText (es : List Elem) : Text :=
  joinSep (pyText "\n") ((es.map elemText).filter (fun t => t ≠ []))

def knownHeaders : List Text :=
  [pyText "PATIENT IDENTIFICATION", pyText "ACTIVE MEDICAL ISSUES",
   pyText "PAST MEDICAL HISTORY", pyText "RECONCILED ADMISSION MEDICATION LIST",
   pyText "ALLERGIES", pyText "SOCIAL HISTORY", pyText "HISTORY OF PRESENTING ILLNESS",
   pyText "REVIEW OF SYSTEMS", pyText "PHYSICAL EXAMINATION", pyText "INVESTIGATIONS",
   pyText "ASSESSMENT", pyText "REASON FOR REFERRAL"]

def capsOrSpace (c : Char) : Bool := isUpperAZ c || isSpaceChar c

/-- re.match of ^[A-Z][A-Z\s]+:$ on a stripped text (with no trailing
newline the anchor is the end of the string). -/
def matchAllCapsColon : Text → Bool
  | [] => false
  | c :: rest =>
      isUpperAZ c && !rest.dropLast.isEmpty && rest.dropLast.all capsOrSpace &&
        rest.getLast? == some ':'

/-- re.match of ^[A-Z][A-Z\s]+\s*$ on a stripped text. -/
def matchAllCapsLine : Text → Bool
  | [] => false
  | c :: rest => isUpperAZ c && !rest.isEmpty && rest.all capsOrSpace

def is_section_header (t : Text) : Bool :=
  if t = [] then false
  else
    let s := pyStrip t
    if matchAllCapsColon s then true
    else if matchAllCapsLine s then true
    else
      let tu := rstripChar ':' (pyStrip (pyUpper t))
      knownHeaders.any fun h => containsSub h tu

def sectionMappings : List (Text × Text) :=
  [(pyText "PATIENT IDENTIFICATION", pyText "patient_identification"),
   (pyText "ACTIVE MEDICAL ISSUES", pyText "active_medical_issues"),
   (pyText "PAST MEDICAL HISTORY", pyText "past_medical_history"),
   (pyText "RECONCILED ADMISSION MEDICATION LIST", pyText "medications"),
   (pyText "MEDICATION LIST", pyText "medications"),
   (pyText "MEDICATIONS", pyText "medications"),
   (pyText "ALLERGIES", pyText "allergies"),
   (pyText "SOCIAL HISTORY", pyText "social_history"),
   (pyText "HISTORY OF PRESENTING ILLNESS", pyText "history_presenting_illness"),
   (pyText "REVIEW OF SYSTEMS", pyText "review_of_systems"),
   (pyText "PHYSICAL EXAMINATION", pyText "physical_examination"),
   (pyText "INVESTIGATIONS", pyText "investigations"),
   (pyText "ASSESSMENT", pyText "assessment")]

def findMapping : List (Text × Text) → Text → Option Text
  | [], _ => none
  | (k, v) :: rest, s => if containsSub k s then some v else findMapping rest s

/-- re.sub of [^\w\s] with the empty string, applied after lowering and
replacing spaces by underscores. -/
def slugify (t : Text) : Text :=
  ((pyLower t).map fun c => if c = ' ' then '_' else c).filter
    fun c => isWordChar c || isSpaceChar c

def normalize_section_name (t : Text) : Text :=
  let s := pyUpper (rstripChar ':' (pyStrip t))
  match findMapping sectionMappings s with
  | some v => v
  | none => slugify s

abbrev Sections := List (Text × List Elem)

/-- Insertion-ordered dictionary update: append to the bucket of an
existing key in place, or create the key at the end (Python dicts preserve
insertion order). -/
def appendToKey : Sections → Text → Elem → Sections
  | [], n, e => [(n, [e])]
  | (k, v) :: rest, n, e =>
      if k = n then (k, v ++ [e]) :: rest else (k, v) :: appendToKey rest n e

/-- The header decision of _identify_sections: a Title element, a text
passing _is_section_header, or a text containing a known header. -/
def isHeaderElem (e : Elem) : Bool :=
  let ty := pyLower (elemType e)
  let tx := pyStrip (elemText e)
  ty = pyText "title" || is_section_header tx ||
    knownHeaders.any (fun h => containsSub h (pyUpper tx))

/-- The per-element step of _identify_sections.  A non-header element is
appended to the current section only when that section name is truthy
(elif current_section in the source): when no header has been seen, or the
last header normalized to the empty string (a blank or punctuation-only
header text), content goes to the reserved header bucket. -/
def identifySectionsAux : List Elem → Option Text → Sections → Sections
  | [], _, secs => secs
  | e :: rest, cur, secs =>
      if isHeaderElem e then
        let name := normalize_section_name (pyStrip (elemText e))
        identifySectionsAux rest (some name) (appendToKey secs name e)
      else
        match cur with
        | some (c :: cs) =>
            identifySectionsAux rest (some (c :: cs)) (appendToKey secs (c :: cs) e)
        | some [] =>
            identifySectionsAux rest (some []) (appendToKey secs (pyText "header") e)
        | none => identifySectionsAux rest none (appendToKey secs (pyText "header") e)

def identifySections (es : List Elem) : Sections := identifySectionsAux es none []

def alookup [DecidableEq κ] : List (κ × α) → κ → Option α
  | [], _ => none
  | (k, v) :: rest, n => if k = n then some v else alookup rest n

/-! Dictionaries (Python dict) as insertion-ordered association lists. -/

def dictSet [DecidableEq κ] : List (κ × α) → κ → α → List (κ × α)
  | [], k, v => [(k, v)]
  | (k1, v1) :: rest, k, v =>
      if k1 = k then (k1, v) :: rest else (k1, v1) :: dictSet rest k v

/-- Python dict.update: assign every source entry in source order. -/
def dictUpdate [DecidableEq κ] (d src : List (κ × α)) : List (κ × α) :=
  src.foldl (fun acc kv => dictSet acc kv.1 kv.2) d

def dictGet (d : List (Text × Text)) (k : Text) : Text := (alookup d k).getD []

/-- First pattern of a table whose re.search succeeds (the loops of the
source break after the first matching pattern). -/
def firstSearch (ci : Bool) (pats : List RE) (t : Text) : Option RMatch :=
  pats.findSome? (fun p => reSearch ci p t)

/-! The regex field extractors of DataExtractor. -/

def invalidNames : List Text :=
  [pyText "is", pyText "a", pyText "the", pyText "an", pyText "who", pyText "presented"]

def identNameLoop (t : Text) : List RE → Option Text
  | [] => none
  | p :: rest =>
    match reSearch true p t with
    | some m =>
      let name := pyStrip (getGroup m 1)
      if name.length > 1 ∧ pyLower name ∉ invalidNames then
        if name.length = 1 then
          match reSearch true titleInitialPat t with
          | some tm => some (getGroup tm 1 ++ [' '] ++ getGroup tm 2)
          | none => some name
        else some name
      else identNameLoop t rest
    | none => identNameLoop t rest

def extract_patient_name_from_identification (t : Text) : Option Text :=
  identNameLoop t identNamePats

def pyCapitalize : Text → Text
  | [] => []
  | c :: rest => c.toUpper :: pyLower rest

def normGenderWord (w : Text) : Text :=
  if w = pyText "woman" ∨ w = pyText "female" ∨ w = pyText "f" then pyText "Female"
  else if w = pyText "man" ∨ w = pyText "male" ∨ w = pyText "m" then pyText "Male"
  else pyCapitalize w

def extract_age_and_gender_from_text (t : Text) : Option (List (Text × Text)) :=
  match firstSearch true ageGenderPats t with
  | some m =>
    some [(pyText "age", pyStrip (getGroup m 1)),
          (pyText "gender", normGenderWord (pyLower (getGroup m 2)))]
  | none => none

def prevIsWord (s : Text) (i : Nat) : Bool :=
  match i with
  | 0 => false
  | j + 1 =>
    match (s.drop j).head? with
    | some c => isWordChar c
    | none => false

/-- re.search of a \b-led pattern whose first character is a word
character: the boundary holds exactly at positions not preceded by a word
character. -/
def searchWordBound (re : RE) (s : Text) : Bool :=
  ((List.range (s.length + 1)).findSome? fun i =>
    if prevIsWord s i then none else tryAt true re s i).isSome

def genderLoop (t : Text) : List (RE × Nat) → Option Text
  | [] => none
  | (p, gi) :: rest =>
    match reSearch true p t with
    | some m =>
      let gw := pyLower (getGroup m gi)
      if gw.head? == some 'm' ∧ gw ∉ [pyText "miss", pyText "ms", pyText "mrs"] then
        some (pyText "Male")
      else if gw.head? == some 'f' ∨ gw = pyText "woman" ∨ gw = pyText "female" then
        some (pyText "Female")
      else genderLoop t rest
    | none => genderLoop t rest

def extract_gender_from_text (t : Text) : Option Text :=
  if searchWordBound (.grp 1 (reAlts [reLit "Ms.", reLit "Mrs.", reLit "Miss."])) t then
    some (pyText "Female")
  else if searchWordBound (.grp 1 (reLit "Mr.")) t then some (pyText "Male")
  else genderLoop t genderPats

def extract_mrn_from_section (t : Text) : Option Text :=
  (firstSearch true mrnPats t).map (fun m => pyStrip (getGroup m 1))

def extract_patient_info_structured (es : List Elem) (sections : Sections)
    (full_text : Text) : List (Text × Text) :=
  let _ := es
  let pi1 : List (Text × Text) :=
    match alookup sections (pyText "patient_identification") with
    | some selems =>
      let stext := combineText selems
      let a := match extract_patient_name_from_identification stext with
        | some n => dictSet [] (pyText "name") n
        | none => []
      let b := match extract_age_and_gender_from_text stext with
        | some ag => dictUpdate a ag
        | none => a
      match extract_mrn_from_section stext with
        | some mrn => dictSet b (pyText "mrn") mrn
        | none => b
    | none => []
  let pi2 := if dictGet pi1 (pyText "name") = [] then
      match firstSearch true patientNamePats full_text with
      | some m => dictSet pi1 (pyText "name") (pyStrip (getGroup m 1))
      | none => pi1
    else pi1
  let pi3 := if dictGet pi2 (pyText "age") = [] then
      match firstSearch true agePats full_text with
      | some m => dictSet pi2 (pyText "age") (pyStrip (getGroup m 1))
      | none => pi2
    else pi2
  let pi4 := if dictGet pi3 (pyText "gender") = [] then
      match extract_gender_from_text full_text with
      | some g => dictSet pi3 (pyText "gender") g
      | none => pi3
    else pi3
  let pi5 := if dictGet pi4 (pyText "mrn") = [] then
      match firstSearch true mrnPats full_text with
      | some m => dictSet pi4 (pyText "mrn") (pyStrip (getGroup m 1))
      | none => pi4
    else pi4
  match firstSearch true dobPats full_text with
  | some m => dictSet pi5 (pyText "date_of_birth") (pyStrip (getGroup m 1))
  | none => pi5

def extract_vital_signs (t : Text) : List (Text × Text) :=
  vitalPats.foldl (fun acc p =>
    match reSearch true p.2 t with
    | some m => dictSet acc p.1 (pyStrip (getGroup m 1))
    | none => acc) []

def diagAppend (acc : List Text) (d : Text) : List Text :=
  if d ≠ [] ∧ d.length > 3 ∧ d ∉ acc then acc ++ [d] else acc

def extract_diagnoses_structured (es : List Elem) (sections : Sections)
    (full_text : Text) : List Text :=
  let _ := es
  let d1 :=
    match alookup sections (pyText "active_medical_issues") with
    | some selems =>
      selems.foldl (fun acc e =>
        let ty := pyLower (elemType e)
        let tx := pyStrip (elemText e)
        if ty = pyText "listitem" then
          diagAppend acc (rstripChar '.' (pyStrip (stripLeadingOrdinal tx)))
        else if ty = pyText "narrativetext" ∨ ty = pyText "text" then
          (reFindIter true diagListItemPat tx).foldl
            (fun acc2 m => diagAppend acc2 (rstripChar '.' (pyStrip (getGroup m 2)))) acc
        else acc) []
    | none => []
  if d1 = [] then
    diagnosisPats.foldl (fun acc p =>
      (reFindIter true p full_text).foldl
        (fun acc2 m =>
          let d := pyStrip (getGroup m 1)
          if d ≠ [] ∧ d ∉ acc2 then acc2 ++ [d] else acc2) acc) []
  else d1

structure Med where
  name : Text
  dosage : Text
deriving DecidableEq

def medAppend (acc : List Med) (m : Med) : List Med :=
  if m.name ≠ [] ∧ m ∉ acc then acc ++ [m] else acc

/-- medication_patterns with each entry's group count, driving the
len(match.groups()) > 1 dispatch of _extract_medications. -/
def medicationPats : List (RE × Nat) :=
  [(medicationPat1, 4), (medicationPat2, 1), (medicationPat3, 1),
   (medicationPat4, 1), (medicationPat5, 1), (medicationPat6, 3)]

/-- The whole-document fallback _extract_medications.  For a pattern with
more than one group the source reads the name from group 1 and the dosage
from groups 2 and 3, whatever the groups of that pattern hold. -/
def extract_medications (t : Text) : List Med :=
  medicationPats.foldl (fun acc pr =>
    (reFindIter true pr.1 t).foldl (fun acc2 m =>
      let med : Med :=
        if pr.2 > 1 then
          { name := pyStrip (getGroup m 1),
            dosage := getGroup m 2 ++ [' '] ++ getGroup m 3 }
        else
          { name := pyStrip (getGroup m 1), dosage := [] }
      medAppend acc2 med) acc) []

def medFromCore (m : RMatch) : Med :=
  { name := pyStrip (getGroup m 1),
    dosage := pyStrip (getGroup m 2) ++ [' '] ++ pyStrip (getGroup m 3) }

def medFromNarrative (m : RMatch) : Med :=
  { name := pyStrip (getGroup m 2),
    dosage := pyStrip (getGroup m 3) ++ [' '] ++ pyStrip (getGroup m 4) }

def extract_medications_structured (es : List Elem) (sections : Sections)
    (full_text : Text) : List Med :=
  let _ := es
  let m1 :=
    match alookup sections (pyText "medications") with
    | some selems =>
      selems.foldl (fun acc e =>
        let ty := pyLower (elemType e)
        let tx := pyStrip (elemText e)
        if ty = pyText "listitem" then
          match searchMedListItem medItemCore tx with
          | some m => medAppend acc (medFromCore m)
          | none => acc
        else if ty = pyText "narrativetext" ∨ ty = pyText "text" then
          (reFindIter true medNarrativePat tx).foldl
            (fun acc2 m => medAppend acc2 (medFromNarrative m)) acc
        else acc) []
    | none => []
  let m2 :=
    if m1 = [] then
      sections.foldl (fun acc sec =>
        if sec.1 ≠ pyText "patient_identification" ∧ sec.1 ≠ pyText "allergies" then
          sec.2.foldl (fun acc2 e =>
            if pyLower (elemType e) = pyText "listitem" then
              match searchMedListItem medItemCoreAll (pyStrip (elemText e)) with
              | some m => medAppend acc2 (medFromCore m)
              | none => acc2
            else acc2) acc
        else acc) []
    else m1
  if m2 = [] then extract_medications full_text else m2

def addIfNew (acc : List Text) (a : Text) : List Text :=
  if a ≠ [] ∧ a ∉ acc then acc ++ [a] else acc

/-- DataExtractor._extract_allergies.  Its second pattern is
no\s+known\s+allergies, which captures no group, so reaching the loop with
that pattern matching raises IndexError at match.group(1); a non-empty
finditer for it is the same condition as searchNKA, hence the error
branch. -/
def extract_allergies (t : Text) : Except Unit (List Text) :=
  if searchNKA t then .ok [pyText "No known allergies"]
  else
    let a1 := (reFindIter true allergyPat1 t).foldl
      (fun acc m =>
        let g := getGroup m 2
        if g ≠ [] then addIfNew acc (pyStrip g) else acc) []
    if searchNKA t then .error ()
    else
      .ok ((reFindIter true allergyPat3 t).foldl
        (fun acc m =>
          let g := getGroup m 1
          if g ≠ [] then addIfNew acc (pyStrip g) else acc) a1)

def extract_procedures (t : Text) : List Text :=
  procedurePats.foldl (fun acc p =>
    (reFindIter true p t).foldl (fun acc2 m => addIfNew acc2 (pyStrip (getGroup m 1))) acc) []

def noteKeywords : List Text :=
  [pyText "note", pyText "observation", pyText "assessment", pyText "plan",
   pyText "impression", pyText "history", pyText "examination"]

def noteSections : List Text :=
  [pyText "history_presenting_illness", pyText "physical_examination",
   pyText "assessment", pyText "plan"]

def contStarts : List Text :=
  [pyText "patient", pyText "she", pyText "he", pyText "they", pyText "we", pyText "the"]

def extract_clinical_notes (es : List Elem) : List Text :=
  let sections := identifySections es
  let fromSections := noteSections.foldl (fun acc n =>
    match alookup sections n with
    | some selems =>
      let st := combineText selems
      if pyStrip st ≠ [] then acc ++ [pyStrip st] else acc
    | none => acc) []
  let step := fun (st : List Text × List Text) (e : Elem) =>
    let tx := pyStrip (elemText e)
    let ty := pyLower (elemType e)
    if tx ≠ [] ∧ tx.length > 30 then
      let tl := pyLower tx
      if ty = pyText "narrativetext" ∨ ty = pyText "text" ∨
          noteKeywords.any (fun kw => containsSub kw tl) then
        if st.2 ≠ [] ∧ ¬ (contStarts.any (fun w => segStartsWith w tl) = true) then
          (st.1, st.2 ++ [[' '] ++ tx])
        else
          ((if st.2 ≠ [] then st.1 ++ [joinSep [' '] st.2] else st.1), [tx])
      else st
    else st
  let res := es.foldl step (fromSections, [])
  let combined := if res.2 ≠ [] then res.1 ++ [joinSep [' '] res.2] else res.1
  if combined ≠ [] then [joinSep [' '] (pySplitWs (joinSep [' '] combined))] else []

/-! The coordinator DataExtractor.extract and the record it produces. -/

structure Record where
  patient_info : List (Text × Text)
  vital_signs : List (Text × Text)
  diagnoses : List Text
  medications : List Med
  allergies : List Text
  procedures : List Text
  clinical_notes : List Text
deriving DecidableEq

/-- The shape of the data returned by LLMExtractor.extract_from_sections
as consumed by the coordinator's merge. -/
structure LLMData where
  patient_info : List (Text × Text)
  vital_signs : List (Text × Text)
  diagnoses : List Text
  medications : List Med
  allergies : List Text
deriving DecidableEq

/-- The regex-only record (the path of extract when LLM extraction is
disabled, unavailable, or has raised). -/
def extractRegexRecord (es : List Elem) (sel : Option (List Text)) : Except Unit Record :=
  let _ := sel
  let sections := identifySections es
  let full_text := combineText es
  match extract_allergies full_text with
  | .error e => .error e
  | .ok al => .ok {
      patient_info := extract_patient_info_structured es sections full_text,
      vital_signs := extract_vital_signs full_text,
      diagnoses := extract_diagnoses_structured es sections full_text,
      medications := extract_medications_structured es sections full_text,
      allergies := al,
      procedures := extract_procedures full_text,
      clinical_notes := extract_clinical_notes es }

/-- The LLM branch of extract: per field group, the LLM value if truthy
(non-empty), else the regex value; then the LLM value is layered on top
again (dict update for the two mappings, replacement for the three
lists). -/
def llmMerge (llm : LLMData) (es : List Elem) : Except Unit Record :=
  let sections := identifySections es
  let full_text := combineText es
  let pi0 := if llm.patient_info ≠ [] then llm.patient_info
             else extract_patient_info_structured es sections full_text
  let vs0 := if llm.vital_signs ≠ [] then llm.vital_signs
             else extract_vital_signs full_text
  let dx0 := if llm.diagnoses ≠ [] then llm.diagnoses
             else extract_diagnoses_structured es sections full_text
  let md0 := if llm.medications ≠ [] then llm.medications
             else extract_medications_structured es sections full_text
  match (if llm.allergies ≠ [] then Except.ok llm.allergies
         else extract_allergies full_text) with
  | .error e => .error e
  | .ok al0 => .ok {
      patient_info := if llm.patient_info ≠ [] then dictUpdate pi0 llm.patient_info else pi0,
      vital_signs := if llm.vital_signs ≠ [] then dictUpdate vs0 llm.vital_signs else vs0,
      diagnoses := if llm.diagnoses ≠ [] then llm.diagnoses else dx0,
      medications := if llm.medications ≠ [] then llm.medications else md0,
      allergies := if llm.allergies ≠ [] then llm.allergies else al0,
      procedures := extract_procedures full_text,
      clinical_notes := extract_clinical_notes es }

/-- DataExtractor.extract.  The outcome of the external LLM call (a value,
or a raised exception) is the llmOutcome parameter; use_llm combined with
the presence of an extractor instance is the useLLM flag.  The try/except
of the source turns any exception in the LLM branch into the regex path. -/
def extract (useLLM : Bool) (llmOutcome : Except Unit LLMData) (es : List Elem)
    (sel : Option (List Text)) : Except Unit Record :=
  if useLLM then
    match llmOutcome with
    | .ok llm =>
      match llmMerge llm es with
      | .ok r => .ok r
      | .error _ => extractRegexRecord es sel
    | .error _ => extractRegexRecord es sel
  else extractRegexRecord es sel

/-! The LLM extractor's batched entry point
(LLMExtractor.extract_from_sections of llm_extractor.py).  The JSON value
returned by json.loads is modeled by JValue; the parser itself is a
parameter (it is the Python standard library, external to the repository),
with parse failure standing for json.JSONDecodeError.  JSON numbers are
modeled as integers; float responses are outside the embedding. -/

inductive JValue where
  | jnull
  | jbool : Bool → JValue
  | jnum : Int → JValue
  | jstr : Text → JValue
  | jarr : List JValue → JValue
  | jobj : List (Text × JValue) → JValue

/-- Python truthiness of a JSON-decoded value. -/
def jTruthy : JValue → Bool
  | .jnull => false
  | .jbool b => b
  | .jnum n => !(n = 0)
  | .jstr s => !s.isEmpty
  | .jarr l => !l.isEmpty
  | .jobj l => !l.isEmpty

def intRepr : Int → Text
  | .ofNat n => Nat.toDigits 10 n
  | .negSucc n => '-' :: Nat.toDigits 10 (n + 1)

mutual

/-- Python repr of a JSON-decoded value. -/
def pyRepr : JValue → Text
  | .jnull => pyText "None"
  | .jbool b => if b then pyText "True" else pyText "False"
  | .jnum n => intRepr n
  | .jstr s => '\'' :: (s ++ ['\''])
  | .jarr l => '[' :: (joinSep (pyText ", ") (pyReprList l) ++ [']'])
  | .jobj l => '\x7b' :: (joinSep (pyText ", ") (pyReprObj l) ++ ['\x7d'])

def pyReprList : List JValue → List Text
  | [] => []
  | v :: rest => pyRepr v :: pyReprList rest

def pyReprObj : List (Text × JValue) → List Text
  | [] => []
  | (k, v) :: rest => ( '\'' :: (k ++ ['\'', ':', ' ']) ++ pyRepr v) :: pyReprObj rest

end

/-- Python str() of a JSON-decoded value. -/
def pyStr : JValue → Text
  | .jstr s => s
  | v => pyRepr v

def jget (fields : List (Text × JValue)) (k : Text) : Option JValue :=
  alookup fields k

/-- extracted_data.get(k, d) or d: the stored value when present and
truthy, else the given default. -/
def jGetOrDefault (fields : List (Text × JValue)) (k : Text) (d : JValue) : JValue :=
  let v := (jget fields k).getD d
  if jTruthy v then v else d

/-- The shape of the normalized result of extract_from_sections: the
medications and patient_info groups are normalized per entry, while
diagnoses, allergies and vital_signs are passed through as decoded. -/
structure LLMSecResult where
  patient_info : List (Text × Text)
  diagnoses : JValue
  medications : List Med
  allergies : JValue
  vital_signs : JValue

def emptyLLMSecResult : LLMSecResult :=
  { patient_info := [], diagnoses := .jarr [], medications := [],
    allergies := .jarr [], vital_signs := .jobj [] }

def isJNull : JValue → Bool
  | .jnull => true
  | _ => false

/-- str.strip() of a decoded value: raises (AttributeError) unless it is a
string. -/
def jStrStrip : JValue → Except Unit Text
  | .jstr s => .ok (pyStrip s)
  | _ => .error ()

/-- One entry of the medications normalization loop: entries that are not
dicts are skipped; a name or dosage value that is present but not a string
raises when stripped. -/
def normalizeMed (med : JValue) : Except Unit (Option Med) :=
  match med with
  | .jobj mf => do
    let n ← jStrStrip ((jget mf (pyText "name")).getD (.jstr []))
    let d ← jStrStrip ((jget mf (pyText "dosage")).getD (.jstr []))
    pure (some { name := n, dosage := d })
  | _ => pure none

/-- Iterating result['medications']: a list is walked entry by entry;
iterating a string or a dict yields characters or keys, none of which are
dicts; anything else is not iterable and raises (TypeError). -/
def normalizeMeds : JValue → Except Unit (List Med)
  | .jarr l =>
      l.foldlM (fun acc m => do
        match ← normalizeMed m with
        | some med => pure (acc ++ [med])
        | none => pure acc) []
  | .jstr _ => .ok []
  | .jobj _ => .ok []
  | _ => .error ()

/-- The patient_info cleanup loop: keep entries whose value is neither
None nor blank when rendered by str(), storing str(value).strip();
.items() on a non-dict raises (AttributeError). -/
def cleanPatientInfo : JValue → Except Unit (List (Text × Text))
  | .jobj fs =>
      .ok (fs.foldl (fun acc kv =>
        if !(isJNull kv.2) && !(pyStrip (pyStr kv.2)).isEmpty then
          acc ++ [(kv.1, pyStrip (pyStr kv.2))]
        else acc) [])
  | _ => .error ()

/-- Validation and normalization of the decoded response; any raising
path surfaces as an error, which extract_from_sections converts to the
all-empty default. -/
def shapeNormalize : JValue → Except Unit LLMSecResult
  | .jobj fields => do
    let pi := jGetOrDefault fields (pyText "patient_info") (.jobj [])
    let dx := jGetOrDefault fields (pyText "diagnoses") (.jarr [])
    let md := jGetOrDefault fields (pyText "medications") (.jarr [])
    let al := jGetOrDefault fields (pyText "allergies") (.jarr [])
    let vs := jGetOrDefault fields (pyText "vital_signs") (.jobj [])
    let meds ← normalizeMeds md
    let cpi ← cleanPatientInfo pi
    pure { patient_info := cpi, diagnoses := dx, medications := meds,
           allergies := al, vital_signs := vs }
  | _ => .error ()

/-- The code-fence stripping of extract_from_sections: strip, drop a
leading json fence or a bare fence, drop a trailing fence, strip. -/
def stripFences (resp : Text) : Text :=
  let r0 := pyStrip resp
  let r1 := if segStartsWith (pyText "```json") r0 then r0.drop 7 else r0
  let r2 := if segStartsWith (pyText "```") r1 then r1.drop 3 else r1
  let r3 := if endsWithSeg (pyText "```") r2 then r2.take (r2.length - 3) else r2
  pyStrip r3

def sectionBanner (name : Text) : Text :=
  pyText "=== " ++ (pyUpper name).map (fun c => if c = '_' then ' ' else c) ++
    pyText " ===\n"

/-- The try-block of extract_from_sections around the transport call: a
raised transport error, a response whose fence-stripped text fails to
parse, or a decoded value failing shape validation all degrade to the
all-empty default. -/
def llmResponseResult (parse : Text → Option JValue)
    (callOutcome : Except Unit Text) : LLMSecResult :=
  match callOutcome with
  | .error _ => emptyLLMSecResult
  | .ok resp =>
    match parse (stripFences resp) with
    | none => emptyLLMSecResult
    | some j =>
      match shapeNormalize j with
      | .ok res => res
      | .error _ => emptyLLMSecResult

/-- LLMExtractor.extract_from_sections.  The transport call's outcome is
the callOutcome parameter (its error constructor covers both a raised
transport error and retry exhaustion); an unavailable extractor returns
the empty dict, which every consumer reads exactly like the all-empty
record.  An empty selected list is falsy in Python, so it selects every
section, as does None. -/
def extract_from_sections (available : Bool) (sections : Sections)
    (selected : Option (List Text)) (parse : Text → Option JValue)
    (callOutcome : Except Unit Text) : LLMSecResult :=
  if !available then emptyLLMSecResult
  else
    let toProcess := match selected with
      | some (n :: rest) => n :: rest
      | _ => sections.map Prod.fst
    let parts := toProcess.foldl (fun acc name =>
      match alookup sections name with
      | some selems =>
        let st := combineText selems
        if pyStrip st ≠ [] then acc ++ [sectionBanner name ++ st ++ pyText "\n"]
        else acc
      | none => acc) []
    if parts = [] then emptyLLMSecResult
    else llmResponseResult parse callOutcome

/-! Data and predicates used by the claim theorems. -/

/-- The concatenation of all buckets of a section mapping. -/
def sectionsElems (secs : Sections) : List Elem := (secs.map Prod.snd).flatten

/-- The normalized keys of the header elements of a stream, in order. -/
def headerKeysOf (es : List Elem) : List Text :=
  (es.filter (fun e => isHeaderElem e)).map
    (fun e => normalize_section_name (pyStrip (elemText e)))

/-- Contiguity: b occurs as one contiguous segment of l. -/
def SubSeg (b l : List α) : Prop := ∃ s t, l = s ++ (b ++ t)

def isSubSegB [DecidableEq α] (b l : List α) : Bool :=
  (List.range (l.length + 1)).any fun i => segStartsWith b (l.drop i)

/-- One character of a phrase written in some letter case. -/
def charCaseVariant (c p : Char) : Prop := c = p ∨ c = p.toUpper ∨ c = p.toLower

def nkaPhrase : Text := pyText "no known allergies"

def llmDupDiag : LLMData :=
  { patient_info := [], vital_signs := [], diagnoses := [pyText "a", pyText "a"],
    medications := [], allergies := [] }

def rDupCex : Record :=
  { patient_info := [], vital_signs := [], diagnoses := [pyText "a", pyText "a"],
    medications := [], allergies := [], procedures := [], clinical_notes := [] }

def llmWitness : LLMData :=
  { patient_info := [(pyText "name", pyText "Z")], vital_signs := [],
    diagnoses := [pyText "Dx"], medications := [], allergies := [] }

def rWitness : Record :=
  { patient_info := [(pyText "name", pyText "Z")], vital_signs := [],
    diagnoses := [pyText "Dx"], medications := [], allergies := [],
    procedures := [], clinical_notes := [] }

/-- The all-empty record of the regex path over the empty element list. -/
def rEmpty : Record :=
  { patient_info := [], vital_signs := [], diagnoses := [], medications := [],
    allergies := [], procedures := [], clinical_notes := [] }

/-- Element stream whose two AAA headers normalize to the same section key
with another section in between. -/
def esCex : List Elem :=
  [{ type? := some "Title", text? := some "AAA" },
   { type? := some "NarrativeText", text? := some "x" },
   { type? := some "Title", text? := some "BBB" },
   { type? := some "Title", text? := some "AAA:" }]

/-- Element stream whose header keys are pairwise distinct. -/
def esContig : List Elem :=
  [{ type? := some "Title", text? := some "AAA" },
   { type? := some "NarrativeText", text? := some "x" },
   { type? := some "Title", text? := some "BBB" },
   { type? := some "NarrativeText", text? := some "y" }]

/-- The bucket a non-header element is appended to: the current section
when its name is truthy (non-empty), else the reserved header bucket. -/
def akey : Option Text → Text
  | some (c :: cs) => c :: cs
  | _ => pyText "header"

def secW : Sections :=
  [(pyText "assessment", [{ type? := some "NarrativeText", text? := some "stable" }])]

/-! Supporting lemmas. -/


/-- The allergies extractor never reaches its raising branch: the branch
is guarded by the same searchNKA test that short-circuits it. -/
theorem extract_allergies_isOk (t : Text) : (extract_allergies t).isOk = true := by
  unfold extract_allergies
  by_cases h : searchNKA t = true
  · simp [h, Except.isOk, Except.toBool]
  · simp [h, Except.isOk, Except.toBool]

theorem dictSet_self [DecidableEq κ] (d : List (κ × α)) (k : κ) (v : α)
    (hnd : (d.map Prod.fst).Nodup) (hmem : (k, v) ∈ d) : dictSet d k v = d := by
  induction d with
  | nil => cases hmem
  | cons p rest ih =>
    obtain ⟨k1, v1⟩ := p
    rcases List.mem_cons.mp hmem with h | h
    · have hk : k = k1 := congrArg Prod.fst h
      have hv : v = v1 := congrArg Prod.snd h
      simp only [dictSet, if_pos hk.symm, hv]
    · have hk1 : k1 ≠ k := by
        intro he
        subst he
        exact (List.nodup_cons.mp hnd).1 (List.mem_map.mpr ⟨(k1, v), h, rfl⟩)
      simp only [dictSet, if_neg hk1]
      rw [ih (List.nodup_cons.mp hnd).2 h]

theorem dictUpdate_self [DecidableEq κ] (d : List (κ × α))
    (hnd : (d.map Prod.fst).Nodup) : dictUpdate d d = d := by
  have aux : ∀ src, (∀ p ∈ src, p ∈ d) →
      List.foldl (fun acc kv => dictSet acc kv.1 kv.2) d src = d := by
    intro src
    induction src with
    | nil => intro _; rfl
    | cons p rest ih =>
      intro hsub
      have hp : (p.1, p.2) ∈ d := by
        have := hsub p (List.mem_cons_self _ _)
        rwa [Prod.mk.eta]
      simp only [List.foldl_cons, dictSet_self d p.1 p.2 hnd hp]
      exact ih (fun q hq => hsub q (List.mem_cons_of_mem _ hq))
  exact aux d (fun p hp => hp)

/-- The value of the LLM branch when the allergies extractor returns
cleanly (which it always does). -/
theorem llmMerge_eq (llm : LLMData) (es : List Elem) (al : List Text)
    (hal : extract_allergies (combineText es) = .ok al) :
    llmMerge llm es = .ok {
      patient_info := if llm.patient_info ≠ [] then
          dictUpdate llm.patient_info llm.patient_info
        else extract_patient_info_structured es (identifySections es) (combineText es),
      vital_signs := if llm.vital_signs ≠ [] then
          dictUpdate llm.vital_signs llm.vital_signs
        else extract_vital_signs (combineText es),
      diagnoses := if llm.diagnoses ≠ [] then llm.diagnoses
        else extract_diagnoses_structured es (identifySections es) (combineText es),
      medications := if llm.medications ≠ [] then llm.medications
        else extract_medications_structured es (identifySections es) (combineText es),
      allergies := if llm.allergies ≠ [] then llm.allergies else al,
      procedures := extract_procedures (combineText es),
      clinical_notes := extract_clinical_notes es } := by
  unfold llmMerge
  by_cases h : llm.allergies = []
  all_goals
    by_cases hpi : llm.patient_info = [] <;>
    by_cases hvs : llm.vital_signs = [] <;>
    by_cases hdx : llm.diagnoses = [] <;>
    by_cases hmd : llm.medications = [] <;>
    simp [h, hal, hpi, hvs, hdx, hmd]

/-! Claim theorems. -/

/-- C5: if the LLM extractor call raises during extract, the coordinator
discards all LLM output and returns the record of the same call with LLM
extraction disabled (the pure regex result for every field group). -/
theorem extract_llm_error_regex_fallback (es : List Elem) (sel : Option (List Text))
    (err : Unit) (other : Except Unit LLMData) :
    extract true (.error err) es sel = extract false other es sel := rfl

/-- C9: with LLM extraction disabled, extract never raises on element
lists whose elements may lack the text or type keys: a missing text reads
as the empty string, a missing type as the empty (unrecognized) tag, and a
record with every field present is returned. -/
theorem extract_total_malformed (llmOutcome : Except Unit LLMData) (es : List Elem)
    (sel : Option (List Text)) :
    (extract false llmOutcome es sel).isOk = true ∧
    (∀ t, elemText { type? := t, text? := none } = []) ∧
    (∀ t, elemType { type? := none, text? := t } = []) := by
  refine ⟨?_, fun _ => rfl, fun _ => rfl⟩
  show (extractRegexRecord es sel).isOk = true
  unfold extractRegexRecord
  have h := extract_allergies_isOk (combineText es)
  cases hal : extract_allergies (combineText es) with
  | ok v => simp [hal, Except.isOk, Except.toBool]
  | error e => rw [hal] at h; simp [Except.isOk, Except.toBool] at h

/-- C8: the whole-document fallback _extract_medications, applied to a
text whose only medication mention is the numbered line
"1. Diltiazem 120 mg po daily", returns the ordinal as a first bogus
medication name with the real name inside its dosage, followed by the
correct pair, instead of the single pair the specification states: the
numbered-list branch reads the name from group 1 (the ordinal) though the
name is group 2, contradicting its own pattern comment and the structured
extractor next to it. -/
theorem extract_medications_numbered_line_eval :
    extract_medications (pyText "1. Diltiazem 120 mg po daily") =
      [{ name := pyText "1", dosage := pyText "Diltiazem 120" },
       { name := pyText "Diltiazem", dosage := pyText "120 mg" }] := by decide

/-- C4, counterexample: when the LLM result carries a duplicated
diagnosis, the LLM-enabled extract returns it unchanged, so the record of
the LLM path can hold two equal diagnosis strings. -/
theorem extract_dedup_llm_cex :
    extract true (.ok llmDupDiag) [] none = .ok rDupCex ∧
      ¬ rDupCex.diagnoses.Nodup := by
  exact ⟨rfl, by decide⟩

/-- C1: in the coordinator's merged record each of patient_info,
vital_signs, diagnoses, medications and allergies is the LLM value when
that value is non-empty, and the regex extractor's value for the same
field group when the LLM value is empty; in particular empty LLM diagnoses
yield the regex-derived diagnoses.  The two Nodup hypotheses state that
the LLM mappings are genuine dictionaries (Python dicts cannot repeat a
key). -/
theorem extract_llm_field_fallback (llm : LLMData) (es : List Elem)
    (sel : Option (List Text)) (r : Record)
    (hpi : (llm.patient_info.map Prod.fst).Nodup)
    (hvs : (llm.vital_signs.map Prod.fst).Nodup)
    (hr : extract true (.ok llm) es sel = .ok r) :
    (r.patient_info = if llm.patient_info = [] then
        extract_patient_info_structured es (identifySections es) (combineText es)
      else llm.patient_info) ∧
    (r.vital_signs = if llm.vital_signs = [] then extract_vital_signs (combineText es)
      else llm.vital_signs) ∧
    (r.diagnoses = if llm.diagnoses = [] then
        extract_diagnoses_structured es (identifySections es) (combineText es)
      else llm.diagnoses) ∧
    (r.medications = if llm.medications = [] then
        extract_medications_structured es (identifySections es) (combineText es)
      else llm.medications) ∧
    (∀ al, extract_allergies (combineText es) = .ok al →
      r.allergies = if llm.allergies = [] then al else llm.allergies) := by
  have hok := extract_allergies_isOk (combineText es)
  cases hal : extract_allergies (combineText es) with
  | error e => rw [hal] at hok; simp [Except.isOk, Except.toBool] at hok
  | ok al =>
    have hme := llmMerge_eq llm es al hal
    have hr2 : extract true (.ok llm) es sel =
        (match llmMerge llm es with
         | .ok r0 => .ok r0
         | .error _ => extractRegexRecord es sel) := rfl
    rw [hr2, hme] at hr
    injection hr with hr
    subst hr
    refine ⟨?_, ?_, ?_, ?_, ?_⟩
    · by_cases hp : llm.patient_info = []
      · simp [hp]
      · simp [hp, dictUpdate_self _ hpi]
    · by_cases hv : llm.vital_signs = []
      · simp [hv]
      · simp [hv, dictUpdate_self _ hvs]
    · by_cases hd : llm.diagnoses = [] <;> simp [hd]
    · by_cases hm : llm.medications = [] <;> simp [hm]
    · intro al2 hal2
      injection hal2 with he
      subst he
      by_cases ha : llm.allergies = [] <;> simp [ha]

/-- C1, witness: the merge theorem evaluated at a concrete LLM result with
non-empty patient_info and diagnoses over the empty element list. -/
theorem extract_llm_field_fallback_check :
    ((llmWitness.patient_info.map Prod.fst).Nodup ∧
     (llmWitness.vital_signs.map Prod.fst).Nodup ∧
     extract true (.ok llmWitness) [] none = .ok rWitness) ∧
    (rWitness.diagnoses = if llmWitness.diagnoses = [] then
        extract_diagnoses_structured [] (identifySections []) (combineText [])
      else llmWitness.diagnoses) :=
  have h1 : (llmWitness.patient_info.map Prod.fst).Nodup := by decide
  have h2 : (llmWitness.vital_signs.map Prod.fst).Nodup := by decide
  have h3 : extract true (.ok llmWitness) [] none = .ok rWitness := rfl
  ⟨⟨h1, h2, h3⟩, (extract_llm_field_fallback llmWitness [] none rWitness h1 h2 h3).2.2.1⟩

/-! The section partition development (claim C2). -/

theorem sectionsElems_cons (p : Text × List Elem) (rest : Sections) :
    sectionsElems (p :: rest) = p.2 ++ sectionsElems rest := by
  simp [sectionsElems]

theorem sectionsElems_appendToKey (secs : Sections) (n : Text) (e : Elem) :
    List.Perm (sectionsElems (appendToKey secs n e)) (e :: sectionsElems secs) := by
  induction secs with
  | nil => simp [appendToKey, sectionsElems]
  | cons p rest ih =>
    obtain ⟨k, v⟩ := p
    by_cases h : k = n
    · subst h
      have ha : appendToKey ((k, v) :: rest) k e = (k, v ++ [e]) :: rest := by
        simp [appendToKey]
      rw [ha, sectionsElems_cons, sectionsElems_cons, List.append_assoc,
        List.singleton_append]
      exact List.perm_middle
    · simp only [appendToKey, if_neg h, sectionsElems_cons]
      exact (List.Perm.append_left v ih).trans List.perm_middle

theorem identifySectionsAux_perm (es : List Elem) :
    ∀ cur secs, List.Perm (sectionsElems (identifySectionsAux es cur secs))
      (sectionsElems secs ++ es) := by
  induction es with
  | nil => intro cur secs; simp [identifySectionsAux]
  | cons e rest ih =>
    intro cur secs
    unfold identifySectionsAux
    by_cases h : isHeaderElem e = true
    · rw [if_pos h]
      refine (ih _ _).trans ?_
      refine ((sectionsElems_appendToKey secs _ e).append_right rest).trans ?_
      simpa using List.perm_middle.symm
    · rw [if_neg h]
      cases cur with
      | some c =>
        cases c with
        | cons c0 cs =>
          refine (ih _ _).trans ?_
          refine ((sectionsElems_appendToKey secs (c0 :: cs) e).append_right rest).trans ?_
          simpa using List.perm_middle.symm
        | nil =>
          refine (ih _ _).trans ?_
          refine ((sectionsElems_appendToKey secs _ e).append_right rest).trans ?_
          simpa using List.perm_middle.symm
      | none =>
        refine (ih _ _).trans ?_
        refine ((sectionsElems_appendToKey secs _ e).append_right rest).trans ?_
        simpa using List.perm_middle.symm

theorem sectionKeys_appendToKey (secs : Sections) (n : Text) (e : Elem) :
    (appendToKey secs n e).map Prod.fst =
      if n ∈ secs.map Prod.fst then secs.map Prod.fst else secs.map Prod.fst ++ [n] := by
  induction secs with
  | nil => simp [appendToKey]
  | cons p rest ih =>
    obtain ⟨k, v⟩ := p
    by_cases h : k = n
    · subst h
      simp [appendToKey]
    · simp only [appendToKey, if_neg h, List.map_cons, ih]
      have hnk : ¬ n = k := fun he => h he.symm
      by_cases hm : n ∈ rest.map Prod.fst
      · simp [hm, hnk]
      · simp [hm, hnk]

theorem sectionKeys_nodup_appendToKey (secs : Sections) (n : Text) (e : Elem)
    (h : (secs.map Prod.fst).Nodup) : ((appendToKey secs n e).map Prod.fst).Nodup := by
  rw [sectionKeys_appendToKey]
  by_cases hm : n ∈ secs.map Prod.fst
  · simpa [hm] using h
  · simp [hm, List.nodup_append, h]

theorem identifySectionsAux_keys_nodup : ∀ (es : List Elem) (cur : Option Text)
    (secs : Sections), (secs.map Prod.fst).Nodup →
    ((identifySectionsAux es cur secs).map Prod.fst).Nodup := by
  intro es
  induction es with
  | nil => intro cur secs h; simpa [identifySectionsAux] using h
  | cons e rest ih =>
    intro cur secs h
    unfold identifySectionsAux
    by_cases hh : isHeaderElem e = true
    · rw [if_pos hh]
      exact ih _ _ (sectionKeys_nodup_appendToKey _ _ _ h)
    · rw [if_neg hh]
      cases cur with
      | some c =>
        cases c with
        | cons c0 cs => exact ih _ _ (sectionKeys_nodup_appendToKey _ _ _ h)
        | nil => exact ih _ _ (sectionKeys_nodup_appendToKey _ _ _ h)
      | none => exact ih _ _ (sectionKeys_nodup_appendToKey _ _ _ h)

theorem appendToKey_buckets_sublist : ∀ (secs : Sections) (n : Text) (e : Elem)
    (done : List Elem), (∀ p ∈ secs, List.Sublist p.2 done) →
    ∀ p ∈ appendToKey secs n e, List.Sublist p.2 (done ++ [e]) := by
  intro secs
  induction secs with
  | nil =>
    intro n e done _ p hp
    simp only [appendToKey, List.mem_singleton] at hp
    subst hp
    exact List.sublist_append_right done [e]
  | cons q rest ih =>
    intro n e done hall p hp
    obtain ⟨k, v⟩ := q
    by_cases h : k = n
    · subst h
      have ha : appendToKey ((k, v) :: rest) k e = (k, v ++ [e]) :: rest := by
        simp [appendToKey]
      rw [ha, List.mem_cons] at hp
      rcases hp with hp | hp
      · subst hp
        exact List.Sublist.append (hall (k, v) (List.mem_cons_self _ _)) (List.Sublist.refl [e])
      · exact ((hall p (List.mem_cons_of_mem _ hp)).trans (List.sublist_append_left done [e]))
    · simp only [appendToKey, if_neg h, List.mem_cons] at hp
      rcases hp with hp | hp
      · subst hp
        exact ((hall (k, v) (List.mem_cons_self _ _)).trans (List.sublist_append_left done [e]))
      · exact ih n e done (fun q hq => hall q (List.mem_cons_of_mem _ hq)) p hp

theorem identifySectionsAux_sublist : ∀ (es : List Elem) (cur : Option Text)
    (secs : Sections) (done : List Elem),
    (∀ p ∈ secs, List.Sublist p.2 done) →
    ∀ p ∈ identifySectionsAux es cur secs, List.Sublist p.2 (done ++ es) := by
  intro es
  induction es with
  | nil => intro cur secs done hall p hp; simpa using hall p hp
  | cons e rest ih =>
    intro cur secs done hall p hp
    unfold identifySectionsAux at hp
    by_cases h : isHeaderElem e = true
    · rw [if_pos h] at hp
      have := ih _ _ (done ++ [e]) (appendToKey_buckets_sublist _ _ _ _ hall) p hp
      simpa [List.append_assoc] using this
    · rw [if_neg h] at hp
      cases cur with
      | some c =>
        cases c with
        | cons c0 cs =>
          have := ih _ _ (done ++ [e]) (appendToKey_buckets_sublist _ _ _ _ hall) p hp
          simpa [List.append_assoc] using this
        | nil =>
          have := ih _ _ (done ++ [e]) (appendToKey_buckets_sublist _ _ _ _ hall) p hp
          simpa [List.append_assoc] using this
      | none =>
        have := ih _ _ (done ++ [e]) (appendToKey_buckets_sublist _ _ _ _ hall) p hp
        simpa [List.append_assoc] using this

/-- C2: section segmentation partitions the element list: the multiset
union of the buckets is exactly the input list (so every element, content
before the first header included, lands in exactly one bucket occurrence),
no two buckets carry the same section name, and every bucket is a sublist
of the input, preserving the original relative order. -/
theorem identifySections_partition (es : List Elem) :
    List.Perm (sectionsElems (identifySections es)) es ∧
    ((identifySections es).map Prod.fst).Nodup ∧
    ∀ p ∈ identifySections es, List.Sublist p.2 es := by
  refine ⟨?_, ?_, ?_⟩
  · simpa [sectionsElems] using identifySectionsAux_perm es none []
  · exact identifySectionsAux_keys_nodup es none [] (by simp)
  · intro p hp
    simpa using identifySectionsAux_sublist es none [] [] (by simp) p hp

theorem segStartsWith_iff [DecidableEq α] :
    ∀ (p l : List α), segStartsWith p l = true ↔ ∃ t, l = p ++ t := by
  intro p
  induction p with
  | nil => intro l; simp [segStartsWith]
  | cons a as ih =>
    intro l
    cases l with
    | nil => simp [segStartsWith]
    | cons b bs =>
      by_cases h : a = b
      · subst h
        simp [segStartsWith, ih]
      · simp only [segStartsWith, if_neg h]
        constructor
        · intro hf; cases hf
        · rintro ⟨t, ht⟩
          exact absurd (List.cons.injEq .. ▸ ht).1.symm h

theorem SubSeg_iff_isSubSegB [DecidableEq α] (b l : List α) :
    SubSeg b l ↔ isSubSegB b l = true := by
  constructor
  · rintro ⟨s, t, rfl⟩
    unfold isSubSegB
    rw [List.any_eq_true]
    refine ⟨s.length, List.mem_range.mpr ?_, ?_⟩
    · simp
      omega
    · rw [List.drop_left, segStartsWith_iff]
      exact ⟨t, rfl⟩
  · intro h
    unfold isSubSegB at h
    rw [List.any_eq_true] at h
    obtain ⟨i, _, hs⟩ := h
    rw [segStartsWith_iff] at hs
    obtain ⟨t, ht⟩ := hs
    exact ⟨l.take i, t, by rw [← ht, List.take_append_drop]⟩

instance [DecidableEq α] (b l : List α) : Decidable (SubSeg b l) :=
  decidable_of_iff _ (SubSeg_iff_isSubSegB b l).symm

/-- C6: extract_from_sections first strips surrounding code-fence markers
and then parses; a transport failure, a parse failure of the stripped
response, or a decoded value failing shape validation all yield the
all-empty default record, and the function is total (a silent degrade,
never a raise). -/
theorem extract_from_sections_degrade (sections : Sections)
    (selected : Option (List Text)) (parse : Text → Option JValue) :
    (∀ err, extract_from_sections true sections selected parse (.error err) =
      emptyLLMSecResult) ∧
    (∀ resp, parse (stripFences resp) = none →
      extract_from_sections true sections selected parse (.ok resp) =
        emptyLLMSecResult) ∧
    (∀ resp j err, parse (stripFences resp) = some j →
      shapeNormalize j = .error err →
      extract_from_sections true sections selected parse (.ok resp) =
        emptyLLMSecResult) := by
  refine ⟨?_, ?_, ?_⟩
  · intro err
    have h1 : llmResponseResult parse (.error err) = emptyLLMSecResult := rfl
    unfold extract_from_sections
    rw [h1]
    simp only [ite_self]
  · intro resp hp
    have h1 : llmResponseResult parse (.ok resp) = emptyLLMSecResult := by
      simp only [llmResponseResult, hp]
    unfold extract_from_sections
    rw [h1]
    simp only [ite_self]
  · intro resp j err hp hs
    have h1 : llmResponseResult parse (.ok resp) = emptyLLMSecResult := by
      simp only [llmResponseResult, hp, hs]
    unfold extract_from_sections
    rw [h1]
    simp only [ite_self]

/-- C6, witness: the degrade theorem at a concrete section mapping and a
response the parser rejects. -/
theorem extract_from_sections_degrade_check :
    ((fun _ : Text => (none : Option JValue)) (stripFences (pyText "nonsense")) = none) ∧
    extract_from_sections true secW none (fun _ => none) (.ok (pyText "nonsense")) =
      emptyLLMSecResult :=
  ⟨rfl, (extract_from_sections_degrade secW none (fun _ => none)).2.1 (pyText "nonsense") rfl⟩

theorem foldl_nodup {α β : Type} (step : List α → β → List α)
    (h : ∀ acc x, acc.Nodup → (step acc x).Nodup) :
    ∀ (l : List β) (acc : List α), acc.Nodup → (l.foldl step acc).Nodup := by
  intro l
  induction l with
  | nil => intro acc ha; simpa using ha
  | cons b rest ih => intro acc ha; exact ih _ (h acc b ha)

theorem nodup_append_singleton {α : Type} {l : List α} {a : α}
    (h : l.Nodup) (hm : a ∉ l) : (l ++ [a]).Nodup := by
  simp [List.nodup_append, h, hm]

theorem addIfNew_nodup (acc : List Text) (a : Text) (h : acc.Nodup) :
    (addIfNew acc a).Nodup := by
  unfold addIfNew
  split
  · next hc => exact nodup_append_singleton h hc.2
  · exact h

theorem diagAppend_nodup (acc : List Text) (d : Text) (h : acc.Nodup) :
    (diagAppend acc d).Nodup := by
  unfold diagAppend
  split
  · next hc => exact nodup_append_singleton h hc.2.2
  · exact h

theorem medAppend_nodup (acc : List Med) (m : Med) (h : acc.Nodup) :
    (medAppend acc m).Nodup := by
  unfold medAppend
  split
  · next hc => exact nodup_append_singleton h hc.2
  · exact h

theorem extract_diagnoses_structured_nodup (es : List Elem) (sections : Sections)
    (full_text : Text) : (extract_diagnoses_structured es sections full_text).Nodup := by
  have hfold : ∀ selems : List Elem,
      (selems.foldl (fun acc e =>
        let ty := pyLower (elemType e)
        let tx := pyStrip (elemText e)
        if ty = pyText "listitem" then
          diagAppend acc (rstripChar '.' (pyStrip (stripLeadingOrdinal tx)))
        else if ty = pyText "narrativetext" ∨ ty = pyText "text" then
          (reFindIter true diagListItemPat tx).foldl
            (fun acc2 m => diagAppend acc2 (rstripChar '.' (pyStrip (getGroup m 2)))) acc
        else acc) []).Nodup := by
    intro selems
    apply foldl_nodup
    · intro acc e hacc
      dsimp only
      split
      · exact diagAppend_nodup _ _ hacc
      · split
        · apply foldl_nodup
          · intro acc2 m h2
            exact diagAppend_nodup _ _ h2
          · exact hacc
        · exact hacc
    · exact List.nodup_nil
  have hfb : (diagnosisPats.foldl (fun acc p =>
      (reFindIter true p full_text).foldl
        (fun acc2 m =>
          let d := pyStrip (getGroup m 1)
          if d ≠ [] ∧ d ∉ acc2 then acc2 ++ [d] else acc2) acc) []).Nodup := by
    apply foldl_nodup
    · intro acc p hacc
      apply foldl_nodup
      · intro acc2 m h2
        dsimp only
        split
        · next hc => exact nodup_append_singleton h2 hc.2
        · exact h2
      · exact hacc
    · exact List.nodup_nil
  unfold extract_diagnoses_structured
  split
  · dsimp only
    split
    · exact hfb
    · exact hfold _
  · dsimp only
    split
    · exact hfb
    · exact List.nodup_nil

theorem ite_nodup {α : Type} (c : Prop) [Decidable c] (x y : List α)
    (hx : x.Nodup) (hy : y.Nodup) : (if c then x else y).Nodup := by
  split
  · exact hx
  · exact hy

theorem extract_medications_nodup (t : Text) : (extract_medications t).Nodup := by
  unfold extract_medications
  apply foldl_nodup
  · intro acc pr hacc
    apply foldl_nodup
    · intro acc2 m h2
      exact medAppend_nodup _ _ h2
    · exact hacc
  · exact List.nodup_nil

theorem extract_medications_structured_nodup (es : List Elem) (sections : Sections)
    (full_text : Text) : (extract_medications_structured es sections full_text).Nodup := by
  have hA : ∀ selems : List Elem,
      (selems.foldl (fun acc e =>
        let ty := pyLower (elemType e)
        let tx := pyStrip (elemText e)
        if ty = pyText "listitem" then
          match searchMedListItem medItemCore tx with
          | some m => medAppend acc (medFromCore m)
          | none => acc
        else if ty = pyText "narrativetext" ∨ ty = pyText "text" then
          (reFindIter true medNarrativePat tx).foldl
            (fun acc2 m => medAppend acc2 (medFromNarrative m)) acc
        else acc) []).Nodup := by
    intro selems
    apply foldl_nodup
    · intro acc e hacc
      dsimp only
      split
      · split
        · exact medAppend_nodup _ _ hacc
        · exact hacc
      · split
        · apply foldl_nodup
          · intro acc2 m h2
            exact medAppend_nodup _ _ h2
          · exact hacc
        · exact hacc
    · exact List.nodup_nil
  have hB : (sections.foldl (fun acc sec =>
      if sec.1 ≠ pyText "patient_identification" ∧ sec.1 ≠ pyText "allergies" then
        sec.2.foldl (fun acc2 e =>
          if pyLower (elemType e) = pyText "listitem" then
            match searchMedListItem medItemCoreAll (pyStrip (elemText e)) with
            | some m => medAppend acc2 (medFromCore m)
            | none => acc2
          else acc2) acc
      else acc) []).Nodup := by
    apply foldl_nodup
    · intro acc sec hacc
      dsimp only
      split
      · apply foldl_nodup
        · intro acc2 e h2
          dsimp only
          split
          · split
            · exact medAppend_nodup _ _ h2
            · exact h2
          · exact h2
        · exact hacc
      · exact hacc
    · exact List.nodup_nil
  unfold extract_medications_structured
  split
  · dsimp only
    exact ite_nodup _ _ _ (extract_medications_nodup full_text)
      (ite_nodup _ _ _ hB (hA _))
  · dsimp only
    exact ite_nodup _ _ _ (extract_medications_nodup full_text)
      (ite_nodup _ _ _ hB List.nodup_nil)

theorem extract_allergies_nodup (t : Text) (l : List Text)
    (h : extract_allergies t = .ok l) : l.Nodup := by
  unfold extract_allergies at h
  split at h
  · injection h with h
    subst h
    exact List.nodup_singleton _
  · dsimp only at h
    injection h with h
    subst h
    apply foldl_nodup
    · intro acc m hacc
      dsimp only
      split
      · exact addIfNew_nodup _ _ hacc
      · exact hacc
    · apply foldl_nodup
      · intro acc m hacc
        dsimp only
        split
        · exact addIfNew_nodup _ _ hacc
        · exact hacc
      · exact List.nodup_nil

/-- C4 (amended): whenever the regex path supplies the record — LLM
extraction disabled, unavailable, or failed — diagnoses and allergies hold
no two equal strings and medications no two equal name-dosage pairs.  (The
LLM-enabled path returns LLM-supplied field values verbatim, so an LLM
result carrying duplicates reaches the merged record unchanged; see the
counterexample.) -/
theorem extract_regex_dedup (llmOutcome : Except Unit LLMData) (es : List Elem)
    (sel : Option (List Text)) (r : Record)
    (h : extract false llmOutcome es sel = .ok r) :
    r.diagnoses.Nodup ∧ r.allergies.Nodup ∧ r.medications.Nodup := by
  have he : extract false llmOutcome es sel = extractRegexRecord es sel := rfl
  rw [he] at h
  unfold extractRegexRecord at h
  dsimp only at h
  cases hal : extract_allergies (combineText es) with
  | error e =>
    rw [hal] at h
    cases h
  | ok al =>
    rw [hal] at h
    injection h with h
    subst h
    exact ⟨extract_diagnoses_structured_nodup es (identifySections es) (combineText es),
      extract_allergies_nodup (combineText es) al hal,
      extract_medications_structured_nodup es (identifySections es) (combineText es)⟩

/-- C4, witness: the amended dedup theorem at the empty element list with
a failed LLM outcome. -/
theorem extract_regex_dedup_check :
    (extract false (.error ()) [] none = .ok rEmpty) ∧
    (rEmpty.diagnoses.Nodup ∧ rEmpty.allergies.Nodup ∧ rEmpty.medications.Nodup) :=
  have h : extract false (.error ()) [] none = .ok rEmpty := rfl
  ⟨h, extract_regex_dedup (.error ()) [] none rEmpty h⟩

def forall2Dec {α β : Type} {R : α → β → Prop} [∀ a b, Decidable (R a b)] :
    (l₁ : List α) → (l₂ : List β) → Decidable (List.Forall₂ R l₁ l₂)
  | [], [] => isTrue List.Forall₂.nil
  | [], _ :: _ => isFalse fun h => by cases h
  | _ :: _, [] => isFalse fun h => by cases h
  | a :: l₁, b :: l₂ =>
    match forall2Dec l₁ l₂ with
    | isTrue ht =>
      if hc : R a b then isTrue (List.Forall₂.cons hc ht)
      else isFalse fun h => by cases h; exact hc ‹R a b›
    | isFalse hf => isFalse fun h => by cases h; exact hf ‹List.Forall₂ R l₁ l₂›

instance {α β : Type} {R : α → β → Prop} [∀ a b, Decidable (R a b)]
    (l₁ : List α) (l₂ : List β) : Decidable (List.Forall₂ R l₁ l₂) :=
  forall2Dec l₁ l₂

instance (c p : Char) : Decidable (charCaseVariant c p) := by
  unfold charCaseVariant
  infer_instance

theorem forall2_split {α β : Type} {R : α → β → Prop} {m : List α} (a b : List β)
    (h : List.Forall₂ R m (a ++ b)) :
    ∃ m1 m2, m = m1 ++ m2 ∧ List.Forall₂ R m1 a ∧ List.Forall₂ R m2 b :=
  ⟨m.take a.length, m.drop a.length, (List.take_append_drop _ m).symm,
    List.forall₂_take_append m a b h, List.forall₂_drop_append m a b h⟩

theorem eatLit_caseVariant : ∀ (p m : List Char), List.Forall₂ charCaseVariant m p →
    (∀ x ∈ p, Char.toLower x = x ∧ Char.toLower x.toUpper = x) →
    ∀ r, eatLit true p (m ++ r) = some r := by
  intro p
  induction p with
  | nil =>
    intro m hm _ r
    cases hm
    rfl
  | cons x xs ih =>
    intro m hm hp r
    cases hm with
    | cons hc ht =>
      rename_i c m'
      have hx1 := (hp x (List.mem_cons_self _ _)).1
      have hx2 := (hp x (List.mem_cons_self _ _)).2
      have hcl : c.toLower = x.toLower := by
        rcases hc with rfl | rfl | rfl
        · rfl
        · rw [hx2, hx1]
        · rw [hx1]
          exact hx1
      have h2 : eatLit true (x :: xs) ((c :: m') ++ r) = eatLit true xs (m' ++ r) := by
        simp [eatLit, hcl]
      rw [h2]
      exact ih m' ht (fun y hy => hp y (List.mem_cons_of_mem _ hy)) r

theorem caseVariant_space {c : Char} (h : charCaseVariant c ' ') : c = ' ' := by
  rcases h with rfl | rfl | rfl <;> decide

theorem caseVariant_nonspace {c p : Char} (h : charCaseVariant c p)
    (hp : isSpaceChar p = false ∧ isSpaceChar p.toUpper = false ∧
      isSpaceChar p.toLower = false) : isSpaceChar c = false := by
  rcases h with rfl | rfl | rfl
  · exact hp.1
  · exact hp.2.1
  · exact hp.2.2

theorem matchNKAAt_caseVariant (m post : Text)
    (hm : List.Forall₂ charCaseVariant m nkaPhrase) :
    matchNKAAt (m ++ post) = true := by
  have hsplit : nkaPhrase =
      pyText "no" ++ ([' '] ++ (pyText "known" ++ ([' '] ++ pyText "allergies"))) := rfl
  rw [hsplit] at hm
  obtain ⟨m1, m2, rfl, h1, h2⟩ := forall2_split _ _ hm
  obtain ⟨ms1, m3, rfl, hs1, h3⟩ := forall2_split _ _ h2
  obtain ⟨m4, m5, rfl, h4, h5⟩ := forall2_split _ _ h3
  obtain ⟨ms2, m6, rfl, hs2, h6⟩ := forall2_split _ _ h5
  have hm1 : ms1 = [' '] := by
    cases hs1 with
    | cons hc ht => cases ht; rw [caseVariant_space hc]
  have hm2 : ms2 = [' '] := by
    cases hs2 with
    | cons hc ht => cases ht; rw [caseVariant_space hc]
  subst hm1
  subst hm2
  obtain ⟨c4, m4', rfl, hc4, h4t⟩ : ∃ c4 m4', m4 = c4 :: m4' ∧
      charCaseVariant c4 'k' ∧ List.Forall₂ charCaseVariant m4' (pyText "nown") := by
    cases h4 with
    | cons hc ht => exact ⟨_, _, rfl, hc, ht⟩
  obtain ⟨c6, m6', rfl, hc6, h6t⟩ : ∃ c6 m6', m6 = c6 :: m6' ∧
      charCaseVariant c6 'a' ∧ List.Forall₂ charCaseVariant m6' (pyText "llergies") := by
    cases h6 with
    | cons hc ht => exact ⟨_, _, rfl, hc, ht⟩
  have hns4 : isSpaceChar c4 = false := caseVariant_nonspace hc4 (by decide)
  have heat1 : eatLit true (pyText "no")
      (m1 ++ (' ' :: ((c4 :: m4') ++ (' ' :: ((c6 :: m6') ++ post))))) =
      some (' ' :: ((c4 :: m4') ++ (' ' :: ((c6 :: m6') ++ post)))) :=
    eatLit_caseVariant _ _ h1 (by decide) _
  have heat2 : eatLit true (pyText "known")
      (c4 :: (m4' ++ (' ' :: (c6 :: (m6' ++ post))))) =
      some (' ' :: (c6 :: (m6' ++ post))) := by
    have := eatLit_caseVariant _ _ (List.Forall₂.cons hc4 h4t) (by decide)
      (' ' :: ((c6 :: m6') ++ post))
    simpa using this
  have hns6 : isSpaceChar c6 = false := caseVariant_nonspace hc6 (by decide)
  have heat3 : eatLit true (pyText "allergies") (c6 :: (m6' ++ post)) = some post := by
    have := eatLit_caseVariant _ _ (List.Forall₂.cons hc6 h6t) (by decide) post
    simpa using this
  have hshape : (m1 ++ ([' '] ++ ((c4 :: m4') ++ ([' '] ++ (c6 :: m6'))))) ++ post =
      m1 ++ (' ' :: ((c4 :: m4') ++ (' ' :: ((c6 :: m6') ++ post)))) := by
    simp
  rw [hshape]
  unfold matchNKAAt
  rw [heat1]
  have hsp : isSpaceChar ' ' = true := rfl
  simp only [hsp, if_true, List.cons_append, List.dropWhile_cons, hns4,
    Bool.false_eq_true, if_false]
  rw [heat2]
  simp only [hsp, if_true, List.cons_append, List.dropWhile_cons, hns6,
    Bool.false_eq_true, if_false]
  rw [heat3]
  rfl

theorem searchNKA_of_matchAt : ∀ (pre t : Text), matchNKAAt t = true → t ≠ [] →
    searchNKA (pre ++ t) = true := by
  intro pre
  induction pre with
  | nil =>
    intro t hm hne
    cases t with
    | nil => exact absurd rfl hne
    | cons c cs => simp [searchNKA, hm]
  | cons x pre2 ih =>
    intro t hm hne
    have h2 := ih t hm hne
    simp [searchNKA, h2]

/-- C3: for every input text containing the phrase "no known allergies"
in any letter case, the allergies extractor returns exactly the
single-element sentinel list, whatever other allergy-label phrases the
text holds (the check short-circuits the pattern loop). -/
theorem extract_allergies_nka_sentinel (s : Text)
    (h : ∃ pre m post, s = pre ++ (m ++ post) ∧
      List.Forall₂ charCaseVariant m nkaPhrase) :
    extract_allergies s = .ok [pyText "No known allergies"] := by
  obtain ⟨pre, m, post, rfl, hm⟩ := h
  have hne : m ++ post ≠ [] := by
    cases hm with
    | cons => simp
  have hsearch : searchNKA (pre ++ (m ++ post)) = true :=
    searchNKA_of_matchAt pre _ (matchNKAAt_caseVariant m post hm) hne
  unfold extract_allergies
  rw [if_pos hsearch]

/-- C3, witness: the sentinel theorem at a concrete mixed-case text. -/
theorem extract_allergies_nka_sentinel_check :
    (∃ pre m post, pyText "Hx: No KNOWN Allergies noted" = pre ++ (m ++ post) ∧
      List.Forall₂ charCaseVariant m nkaPhrase) ∧
    extract_allergies (pyText "Hx: No KNOWN Allergies noted") =
      .ok [pyText "No known allergies"] :=
  have h : ∃ pre m post, pyText "Hx: No KNOWN Allergies noted" = pre ++ (m ++ post) ∧
      List.Forall₂ charCaseVariant m nkaPhrase :=
    ⟨pyText "Hx: ", pyText "No KNOWN Allergies", pyText " noted", by decide, by decide⟩
  ⟨h, extract_allergies_nka_sentinel _ h⟩

theorem alookup_eq_none [DecidableEq κ] {α : Type} (d : List (κ × α)) (k : κ)
    (h : k ∉ d.map Prod.fst) : alookup d k = none := by
  induction d with
  | nil => rfl
  | cons p rest ih =>
    obtain ⟨k1, v1⟩ := p
    have h1 : k1 ≠ k := by
      intro he
      exact h (by simp [he])
    have h2 : k ∉ rest.map Prod.fst := fun hm => h (by simp [hm])
    simp [alookup, h1, ih h2]

theorem alookup_appendToKey_self (secs : Sections) (n : Text) (e : Elem) :
    alookup (appendToKey secs n e) n = some ((alookup secs n).getD [] ++ [e]) := by
  induction secs with
  | nil => simp [appendToKey, alookup]
  | cons p rest ih =>
    obtain ⟨k, v⟩ := p
    by_cases h : k = n
    · subst h
      simp [appendToKey, alookup]
    · simp [appendToKey, alookup, h, ih]

theorem appendToKey_mem_cases (secs : Sections) (n : Text) (e : Elem)
    (hknd : (secs.map Prod.fst).Nodup) (p : Text × List Elem)
    (hp : p ∈ appendToKey secs n e) :
    (p ∈ secs ∧ p.1 ≠ n) ∨ (p.1 = n ∧ p.2 = (alookup secs n).getD [] ++ [e]) := by
  induction secs with
  | nil =>
    simp only [appendToKey, List.mem_singleton] at hp
    subst hp
    right
    exact ⟨rfl, by simp [alookup]⟩
  | cons q rest ih =>
    obtain ⟨k, v⟩ := q
    by_cases h : k = n
    · subst h
      have ha : appendToKey ((k, v) :: rest) k e = (k, v ++ [e]) :: rest := by
        simp [appendToKey]
      rw [ha, List.mem_cons] at hp
      rcases hp with hp | hp
      · subst hp
        right
        exact ⟨rfl, by simp [alookup]⟩
      · left
        refine ⟨List.mem_cons_of_mem _ hp, ?_⟩
        intro he
        exact (List.nodup_cons.mp hknd).1
          (List.mem_map.mpr ⟨p, hp, he⟩)
    · simp only [appendToKey, if_neg h, List.mem_cons] at hp
      rcases hp with hp | hp
      · subst hp
        left
        exact ⟨List.mem_cons_self _ _, h⟩
      · rcases ih (List.nodup_cons.mp hknd).2 hp with ⟨hm, hne⟩ | ⟨h1, h2⟩
        · exact Or.inl ⟨List.mem_cons_of_mem _ hm, hne⟩
        · right
          refine ⟨h1, ?_⟩
          rwa [alookup, if_neg h]

theorem SubSeg_append_right {α : Type} {b d : List α} (l : List α) (h : SubSeg b d) :
    SubSeg b (d ++ l) := by
  obtain ⟨s, t, rfl⟩ := h
  exact ⟨s, t ++ l, by simp⟩

theorem headerKeysOf_cons_header (e : Elem) (rest : List Elem)
    (h : isHeaderElem e = true) :
    headerKeysOf (e :: rest) =
      normalize_section_name (pyStrip (elemText e)) :: headerKeysOf rest := by
  simp [headerKeysOf, h]

theorem headerKeysOf_cons_nonheader (e : Elem) (rest : List Elem)
    (h : ¬ isHeaderElem e = true) :
    headerKeysOf (e :: rest) = headerKeysOf rest := by
  simp [headerKeysOf, h]

theorem appendToKey_step_invariants (secs : Sections) (a : Text) (e : Elem)
    (done : List Elem) (hknd : (secs.map Prod.fst).Nodup)
    (hsuf : ∀ b, alookup secs a = some b → ∃ s, done = s ++ b)
    (hall : ∀ p ∈ secs, SubSeg p.2 done) :
    ((appendToKey secs a e).map Prod.fst).Nodup ∧
    (∀ b, alookup (appendToKey secs a e) a = some b → ∃ s, done ++ [e] = s ++ b) ∧
    (∀ p ∈ appendToKey secs a e, SubSeg p.2 (done ++ [e])) := by
  refine ⟨sectionKeys_nodup_appendToKey _ _ _ hknd, ?_, ?_⟩
  · intro b hb
    rw [alookup_appendToKey_self] at hb
    injection hb with hb
    cases hlk : alookup secs a with
    | some b0 =>
      rw [hlk] at hb
      obtain ⟨s, hs⟩ := hsuf b0 hlk
      exact ⟨s, by rw [← hb]; simp [hs]⟩
    | none =>
      rw [hlk] at hb
      exact ⟨done, by simp [← hb]⟩
  · intro p hp
    rcases appendToKey_mem_cases secs a e hknd p hp with ⟨hm, _⟩ | ⟨_, hv⟩
    · exact SubSeg_append_right [e] (hall p hm)
    · cases hlk : alookup secs a with
      | some b0 =>
        rw [hlk] at hv
        obtain ⟨s, hs⟩ := hsuf b0 hlk
        exact ⟨s, [], by simp [hv, hs]⟩
      | none =>
        rw [hlk] at hv
        exact ⟨done, [], by simp [hv]⟩

theorem akey_some_ne {k : Text} (h : k ≠ []) : akey (some k) = k := by
  cases k with
  | nil => exact absurd rfl h
  | cons c cs => rfl

set_option maxHeartbeats 2000000 in
theorem identifySectionsAux_contig : ∀ (es : List Elem) (cur : Option Text)
    (secs : Sections) (done : List Elem),
    (secs.map Prod.fst).Nodup →
    (∀ k ∈ headerKeysOf es, k ∉ secs.map Prod.fst) →
    (headerKeysOf es).Nodup →
    (([] : Text) ∉ headerKeysOf es) →
    (akey cur ∉ headerKeysOf es) →
    (∀ b, alookup secs (akey cur) = some b → ∃ s, done = s ++ b) →
    (∀ p ∈ secs, SubSeg p.2 done) →
    ∀ p ∈ identifySectionsAux es cur secs, SubSeg p.2 (done ++ es) := by
  intro es
  induction es with
  | nil =>
    intro cur secs done _ _ _ _ _ _ hall p hp
    simpa using hall p hp
  | cons e rest ih =>
    intro cur secs done hknd hfut hnd hne hcf hsuf hall p hp
    unfold identifySectionsAux at hp
    by_cases h : isHeaderElem e = true
    · rw [if_pos h] at hp
      rw [headerKeysOf_cons_header e rest h] at hfut hnd hne hcf
      set key := normalize_section_name (pyStrip (elemText e)) with hkey
      have hkne : key ≠ [] := by
        intro he
        exact hne (by rw [← he]; exact List.mem_cons_self _ _)
      have hkf : key ∉ secs.map Prod.fst := hfut _ (List.mem_cons_self _ _)
      have hlk : alookup secs key = none := alookup_eq_none _ _ hkf
      have hstep := appendToKey_step_invariants secs key e done hknd
        (fun b hb => by rw [hlk] at hb; cases hb) hall
      have hfut2 : ∀ k ∈ headerKeysOf rest,
          k ∉ (appendToKey secs key e).map Prod.fst := by
        intro k hk
        rw [sectionKeys_appendToKey, if_neg hkf, List.mem_append, List.mem_singleton]
        push_neg
        exact ⟨hfut k (List.mem_cons_of_mem _ hk),
          fun he => (List.nodup_cons.mp hnd).1 (he ▸ hk)⟩
      have hakey : akey (some key) = key := akey_some_ne hkne
      have hsuf2 : ∀ b, alookup (appendToKey secs key e) (akey (some key)) = some b →
          ∃ s, done ++ [e] = s ++ b := by
        rw [hakey]
        exact hstep.2.1
      have hcf2 : akey (some key) ∉ headerKeysOf rest := by
        rw [hakey]
        exact (List.nodup_cons.mp hnd).1
      have hne2 : ([] : Text) ∉ headerKeysOf rest :=
        fun hm => hne (List.mem_cons_of_mem _ hm)
      have hres := ih (some key) (appendToKey secs key e) (done ++ [e]) hstep.1 hfut2
        (List.nodup_cons.mp hnd).2 hne2 hcf2 hsuf2 hstep.2.2 p hp
      simpa [List.append_assoc] using hres
    · rw [if_neg h] at hp
      rw [headerKeysOf_cons_nonheader e rest h] at hfut hnd hne hcf
      cases cur with
      | some c =>
        cases c with
        | cons c0 cs =>
          have hsufc : ∀ b, alookup secs (c0 :: cs) = some b → ∃ s, done = s ++ b := hsuf
          have hcfc : (c0 :: cs) ∉ headerKeysOf rest := hcf
          have hstep := appendToKey_step_invariants secs (c0 :: cs) e done hknd hsufc hall
          have hfut2 : ∀ k ∈ headerKeysOf rest,
              k ∉ (appendToKey secs (c0 :: cs) e).map Prod.fst := by
            intro k hk
            rw [sectionKeys_appendToKey]
            by_cases hm : (c0 :: cs) ∈ secs.map Prod.fst
            · rw [if_pos hm]
              exact hfut k hk
            · rw [if_neg hm, List.mem_append, List.mem_singleton]
              push_neg
              exact ⟨hfut k hk, fun he => hcfc (he ▸ hk)⟩
          have hsuf2 : ∀ b, alookup (appendToKey secs (c0 :: cs) e)
              (akey (some (c0 :: cs))) = some b →
              ∃ s, done ++ [e] = s ++ b := hstep.2.1
          have hcf2 : akey (some (c0 :: cs)) ∉ headerKeysOf rest := hcfc
          have hres := ih (some (c0 :: cs)) (appendToKey secs (c0 :: cs) e)
            (done ++ [e]) hstep.1 hfut2 hnd hne hcf2 hsuf2 hstep.2.2 p hp
          simpa [List.append_assoc] using hres
        | nil =>
          have hsufc : ∀ b, alookup secs (pyText "header") = some b →
              ∃ s, done = s ++ b := hsuf
          have hcfc : pyText "header" ∉ headerKeysOf rest := hcf
          have hstep := appendToKey_step_invariants secs (pyText "header") e done hknd
            hsufc hall
          have hfut2 : ∀ k ∈ headerKeysOf rest,
              k ∉ (appendToKey secs (pyText "header") e).map Prod.fst := by
            intro k hk
            rw [sectionKeys_appendToKey]
            by_cases hm : pyText "header" ∈ secs.map Prod.fst
            · rw [if_pos hm]
              exact hfut k hk
            · rw [if_neg hm, List.mem_append, List.mem_singleton]
              push_neg
              exact ⟨hfut k hk, fun he => hcfc (he ▸ hk)⟩
          have hsuf2 : ∀ b, alookup (appendToKey secs (pyText "header") e)
              (akey (some [])) = some b →
              ∃ s, done ++ [e] = s ++ b := hstep.2.1
          have hcf2 : akey (some []) ∉ headerKeysOf rest := hcfc
          have hres := ih (some []) (appendToKey secs (pyText "header") e)
            (done ++ [e]) hstep.1 hfut2 hnd hne hcf2 hsuf2 hstep.2.2 p hp
          simpa [List.append_assoc] using hres
      | none =>
        have hsufc : ∀ b, alookup secs (pyText "header") = some b →
            ∃ s, done = s ++ b := hsuf
        have hcfc : pyText "header" ∉ headerKeysOf rest := hcf
        have hstep := appendToKey_step_invariants secs (pyText "header") e done hknd
          hsufc hall
        have hfut2 : ∀ k ∈ headerKeysOf rest,
            k ∉ (appendToKey secs (pyText "header") e).map Prod.fst := by
          intro k hk
          rw [sectionKeys_appendToKey]
          by_cases hm : pyText "header" ∈ secs.map Prod.fst
          · rw [if_pos hm]
            exact hfut k hk
          · rw [if_neg hm, List.mem_append, List.mem_singleton]
            push_neg
            exact ⟨hfut k hk, fun he => hcfc (he ▸ hk)⟩
        have hsuf2 : ∀ b, alookup (appendToKey secs (pyText "header") e)
            (akey (none : Option Text)) = some b →
            ∃ s, done ++ [e] = s ++ b := hstep.2.1
        have hcf2 : akey (none : Option Text) ∉ headerKeysOf rest := hcfc
        have hres := ih none (appendToKey secs (pyText "header") e) (done ++ [e])
          hstep.1 hfut2 hnd hne hcf2 hsuf2 hstep.2.2 p hp
        simpa [List.append_assoc] using hres

/-- C7 (amended): every section's members are contiguous in the original
element order provided no two header elements normalize to the same
section key, no header key collides with the reserved "header" bucket,
and no header normalizes to the empty (falsy) key; a recurring key splits
its bucket across its occurrences, and a blank header hands following
content back to the "header" bucket. -/
theorem sections_contiguous_unique_headers (es : List Elem)
    (hnd : (headerKeysOf es).Nodup)
    (hh : pyText "header" ∉ headerKeysOf es)
    (hne : ([] : Text) ∉ headerKeysOf es) :
    ∀ p ∈ identifySections es, SubSeg p.2 es := by
  intro p hp
  have := identifySectionsAux_contig es none [] [] (by simp)
    (by intro k _; simp) hnd hne hh
    (by intro b hb; cases hb) (by intro q hq; cases hq) p hp
  simpa using this

/-- C7, counterexample: in esCex the two AAA headers normalize to the same
key "aaa" with the BBB section in between, so the aaa bucket holds the
first, second and fourth elements — not a contiguous segment of the
input. -/
theorem sections_contiguous_cex :
    ¬ (∀ p ∈ identifySections esCex, SubSeg p.2 esCex) := by decide

/-- C7, witness: the amended contiguity theorem at a stream with distinct,
non-empty header keys. -/
theorem sections_contiguous_unique_headers_check :
    ((headerKeysOf esContig).Nodup ∧ pyText "header" ∉ headerKeysOf esContig ∧
      ([] : Text) ∉ headerKeysOf esContig) ∧
    (∀ p ∈ identifySections esContig, SubSeg p.2 esContig) :=
  have h1 : (headerKeysOf esContig).Nodup := by decide
  have h2 : pyText "header" ∉ headerKeysOf esContig := by decide
  have h3 : ([] : Text) ∉ headerKeysOf esContig := by decide
  ⟨⟨h1, h2, h3⟩, sections_contiguous_unique_headers esContig h1 h2 h3⟩
